import Mathlib

/-! The label printer of `labelprinter/internal/printer/printer.go`.

A shallow embedding of the text normaliser (`normalizeText`), the line wrapper
(`wrapText`), the layout engine (`GenerateZPL`) and the connection manager
(`PrinterConnection`, `PrinterManager`), followed by theorems about them.

Conventions of the embedding:

* a Go `string` is the list of its bytes (`GoString`, each element a value below 256);
  nothing assumes that the bytes are well-formed UTF-8;
* a Go `rune` is a natural number (the code point); the mapping function of
  `normalizeText`, which may answer `-1`, returns an `Int`;
* a Go `int` is an `Int`, reduced to the 64-bit two's complement range after each
  arithmetic operation that can leave it (`wrapInt`);
* a function that can stop with a run-time panic (division by zero, slice bounds out of
  range) returns an `Option`, `none` standing for the panic;
* the network is a value of type `Net` passed through the methods of the connection
  manager: it fixes the outcome of every write and dial and records the operations made.
-/

set_option maxRecDepth 100000
set_option linter.unusedVariables false

/-- A Go string: its bytes in order. -/
abbrev GoString := List Nat

/-- Reduction of an integer to the range of a 64-bit signed `int`. -/
def wrapInt (x : Int) : Int :=
  (x + 2 ^ 63) % 2 ^ 64 - 2 ^ 63

/-- Go integer division `a / b`: truncated towards zero, panics when `b` is zero. -/
def goDiv (a b : Int) : Option Int :=
  if b = 0 then none else some (wrapInt (Int.tdiv a b))

/-- The slice expression `s[:k]`: panics unless `0 ≤ k ≤ len(s)`. -/
def sliceTo (s : GoString) (k : Int) : Option GoString :=
  if 0 ≤ k ∧ k ≤ (s.length : Int) then some (s.take k.toNat) else none

namespace utf8

/-- The constant `utf8.RuneError`, U+FFFD. -/
def RuneError : Nat := 0xFFFD

/-- Go `utf8.DecodeRuneInString`: the first rune of `s` and its width in bytes. An empty
string gives `(RuneError, 0)`; a byte that does not start a well-formed, shortest-form
encoding of a scalar value gives `(RuneError, 1)`. -/
def DecodeRuneInString : GoString → Nat × Nat
  | [] => (RuneError, 0)
  | s0 :: rest =>
    if s0 < 0x80 then (s0, 1)
    else if s0 < 0xC2 then (RuneError, 1)
    else if s0 < 0xE0 then
      match rest with
      | s1 :: _ =>
        if 0x80 ≤ s1 ∧ s1 ≤ 0xBF then (s0 % 32 * 64 + s1 % 64, 2) else (RuneError, 1)
      | _ => (RuneError, 1)
    else if s0 < 0xF0 then
      match rest with
      | s1 :: s2 :: _ =>
        if (if s0 = 0xE0 then 0xA0 else 0x80) ≤ s1 ∧ s1 ≤ (if s0 = 0xED then 0x9F else 0xBF)
            ∧ 0x80 ≤ s2 ∧ s2 ≤ 0xBF then
          (s0 % 16 * 4096 + s1 % 64 * 64 + s2 % 64, 3)
        else (RuneError, 1)
      | _ => (RuneError, 1)
    else if s0 < 0xF5 then
      match rest with
      | s1 :: s2 :: s3 :: _ =>
        if (if s0 = 0xF0 then 0x90 else 0x80) ≤ s1 ∧ s1 ≤ (if s0 = 0xF4 then 0x8F else 0xBF)
            ∧ 0x80 ≤ s2 ∧ s2 ≤ 0xBF ∧ 0x80 ≤ s3 ∧ s3 ≤ 0xBF then
          (s0 % 8 * 262144 + s1 % 64 * 4096 + s2 % 64 * 64 + s3 % 64, 4)
        else (RuneError, 1)
      | _ => (RuneError, 1)
    else (RuneError, 1)

/-- Go `utf8.AppendRune` on an empty buffer: the UTF-8 encoding of `r`; a surrogate or a
value above U+10FFFF is written as `RuneError`. -/
def EncodeRune (r : Nat) : GoString :=
  if r ≤ 0x7F then [r]
  else if r ≤ 0x7FF then [0xC0 + r / 64, 0x80 + r % 64]
  else if 0x10FFFF < r ∨ (0xD800 ≤ r ∧ r ≤ 0xDFFF) then [0xEF, 0xBF, 0xBD]
  else if r ≤ 0xFFFF then [0xE0 + r / 4096, 0x80 + r / 64 % 64, 0x80 + r % 64]
  else [0xF0 + r / 262144, 0x80 + r / 4096 % 64, 0x80 + r / 64 % 64, 0x80 + r % 64]

/-- The iteration `for _, r := range s` with at most `fuel` steps: each rune of `s`
paired with the bytes it was decoded from. -/
def rangeAux : Nat → GoString → List (Nat × GoString)
  | 0, _ => []
  | fuel + 1, s =>
    if s = [] then []
    else
      ((DecodeRuneInString s).1, s.take (DecodeRuneInString s).2)
        :: rangeAux fuel (s.drop (DecodeRuneInString s).2)

/-- The iteration `for _, r := range s`: every step consumes at least one byte, so
`len(s)` steps are enough. -/
def range (s : GoString) : List (Nat × GoString) :=
  rangeAux s.length s

/-- Go `utf8.RuneCountInString`: the number of runes of `s`, an ill-formed byte counting
as one rune. -/
def RuneCountInString (s : GoString) : Nat :=
  (range s).length

end utf8

/-- A Go string literal: the UTF-8 encoding of its code points. -/
def str (s : String) : GoString :=
  s.data.flatMap (fun c => utf8.EncodeRune c.toNat)

namespace unicode

/-- Go `unicode.IsSpace`: the code points with the Unicode White_Space property. -/
def IsSpace (r : Nat) : Bool :=
  (0x09 ≤ r && r ≤ 0x0D) || r == 0x20 || r == 0x85 || r == 0xA0 || r == 0x1680
    || (0x2000 ≤ r && r ≤ 0x200A) || r == 0x2028 || r == 0x2029 || r == 0x202F
    || r == 0x205F || r == 0x3000

/-- The range table `unicode.Mn` of the standard library (general category Mn, nonspacing
marks), in the version for Unicode 15.0.0 that Go 1.21 introduced: inclusive code point
ranges in increasing order. The table depends on the Go release (Unicode 13.0.0 before
Go 1.21; later versions add the marks of new scripts); in every version its first entry
is U+0300. What is proved about texts in general takes the table as a parameter
(`normalizeTextWith`). -/
def Mn : List (Nat × Nat) :=
  [(0x0300, 0x036F), (0x0483, 0x0487), (0x0591, 0x05BD), (0x05BF, 0x05BF), (0x05C1, 0x05C2),
   (0x05C4, 0x05C5), (0x05C7, 0x05C7), (0x0610, 0x061A), (0x064B, 0x065F), (0x0670, 0x0670),
   (0x06D6, 0x06DC), (0x06DF, 0x06E4), (0x06E7, 0x06E8), (0x06EA, 0x06ED), (0x0711, 0x0711),
   (0x0730, 0x074A), (0x07A6, 0x07B0), (0x07EB, 0x07F3), (0x07FD, 0x07FD), (0x0816, 0x0819),
   (0x081B, 0x0823), (0x0825, 0x0827), (0x0829, 0x082D), (0x0859, 0x085B), (0x0898, 0x089F),
   (0x08CA, 0x08E1), (0x08E3, 0x0902), (0x093A, 0x093A), (0x093C, 0x093C), (0x0941, 0x0948),
   (0x094D, 0x094D), (0x0951, 0x0957), (0x0962, 0x0963), (0x0981, 0x0981), (0x09BC, 0x09BC),
   (0x09C1, 0x09C4), (0x09CD, 0x09CD), (0x09E2, 0x09E3), (0x09FE, 0x09FE), (0x0A01, 0x0A02),
   (0x0A3C, 0x0A3C), (0x0A41, 0x0A42), (0x0A47, 0x0A48), (0x0A4B, 0x0A4D), (0x0A51, 0x0A51),
   (0x0A70, 0x0A71), (0x0A75, 0x0A75), (0x0A81, 0x0A82), (0x0ABC, 0x0ABC), (0x0AC1, 0x0AC5),
   (0x0AC7, 0x0AC8), (0x0ACD, 0x0ACD), (0x0AE2, 0x0AE3), (0x0AFA, 0x0AFF), (0x0B01, 0x0B01),
   (0x0B3C, 0x0B3C), (0x0B3F, 0x0B3F), (0x0B41, 0x0B44), (0x0B4D, 0x0B4D), (0x0B55, 0x0B56),
   (0x0B62, 0x0B63), (0x0B82, 0x0B82), (0x0BC0, 0x0BC0), (0x0BCD, 0x0BCD), (0x0C00, 0x0C00),
   (0x0C04, 0x0C04), (0x0C3C, 0x0C3C), (0x0C3E, 0x0C40), (0x0C46, 0x0C48), (0x0C4A, 0x0C4D),
   (0x0C55, 0x0C56), (0x0C62, 0x0C63), (0x0C81, 0x0C81), (0x0CBC, 0x0CBC), (0x0CBF, 0x0CBF),
   (0x0CC6, 0x0CC6), (0x0CCC, 0x0CCD), (0x0CE2, 0x0CE3), (0x0D00, 0x0D01), (0x0D3B, 0x0D3C),
   (0x0D41, 0x0D44), (0x0D4D, 0x0D4D), (0x0D62, 0x0D63), (0x0D81, 0x0D81), (0x0DCA, 0x0DCA),
   (0x0DD2, 0x0DD4), (0x0DD6, 0x0DD6), (0x0E31, 0x0E31), (0x0E34, 0x0E3A), (0x0E47, 0x0E4E),
   (0x0EB1, 0x0EB1), (0x0EB4, 0x0EBC), (0x0EC8, 0x0ECE), (0x0F18, 0x0F19), (0x0F35, 0x0F35),
   (0x0F37, 0x0F37), (0x0F39, 0x0F39), (0x0F71, 0x0F7E), (0x0F80, 0x0F84), (0x0F86, 0x0F87),
   (0x0F8D, 0x0F97), (0x0F99, 0x0FBC), (0x0FC6, 0x0FC6), (0x102D, 0x1030), (0x1032, 0x1037),
   (0x1039, 0x103A), (0x103D, 0x103E), (0x1058, 0x1059), (0x105E, 0x1060), (0x1071, 0x1074),
   (0x1082, 0x1082), (0x1085, 0x1086), (0x108D, 0x108D), (0x109D, 0x109D), (0x135D, 0x135F),
   (0x1712, 0x1714), (0x1732, 0x1733), (0x1752, 0x1753), (0x1772, 0x1773), (0x17B4, 0x17B5),
   (0x17B7, 0x17BD), (0x17C6, 0x17C6), (0x17C9, 0x17D3), (0x17DD, 0x17DD), (0x180B, 0x180D),
   (0x180F, 0x180F), (0x1885, 0x1886), (0x18A9, 0x18A9), (0x1920, 0x1922), (0x1927, 0x1928),
   (0x1932, 0x1932), (0x1939, 0x193B), (0x1A17, 0x1A18), (0x1A1B, 0x1A1B), (0x1A56, 0x1A56),
   (0x1A58, 0x1A5E), (0x1A60, 0x1A60), (0x1A62, 0x1A62), (0x1A65, 0x1A6C), (0x1A73, 0x1A7C),
   (0x1A7F, 0x1A7F), (0x1AB0, 0x1ABD), (0x1ABF, 0x1ACE), (0x1B00, 0x1B03), (0x1B34, 0x1B34),
   (0x1B36, 0x1B3A), (0x1B3C, 0x1B3C), (0x1B42, 0x1B42), (0x1B6B, 0x1B73), (0x1B80, 0x1B81),
   (0x1BA2, 0x1BA5), (0x1BA8, 0x1BA9), (0x1BAB, 0x1BAD), (0x1BE6, 0x1BE6), (0x1BE8, 0x1BE9),
   (0x1BED, 0x1BED), (0x1BEF, 0x1BF1), (0x1C2C, 0x1C33), (0x1C36, 0x1C37), (0x1CD0, 0x1CD2),
   (0x1CD4, 0x1CE0), (0x1CE2, 0x1CE8), (0x1CED, 0x1CED), (0x1CF4, 0x1CF4), (0x1CF8, 0x1CF9),
   (0x1DC0, 0x1DFF), (0x20D0, 0x20DC), (0x20E1, 0x20E1), (0x20E5, 0x20F0), (0x2CEF, 0x2CF1),
   (0x2D7F, 0x2D7F), (0x2DE0, 0x2DFF), (0x302A, 0x302D), (0x3099, 0x309A), (0xA66F, 0xA66F),
   (0xA674, 0xA67D), (0xA69E, 0xA69F), (0xA6F0, 0xA6F1), (0xA802, 0xA802), (0xA806, 0xA806),
   (0xA80B, 0xA80B), (0xA825, 0xA826), (0xA82C, 0xA82C), (0xA8C4, 0xA8C5), (0xA8E0, 0xA8F1),
   (0xA8FF, 0xA8FF), (0xA926, 0xA92D), (0xA947, 0xA951), (0xA980, 0xA982), (0xA9B3, 0xA9B3),
   (0xA9B6, 0xA9B9), (0xA9BC, 0xA9BD), (0xA9E5, 0xA9E5), (0xAA29, 0xAA2E), (0xAA31, 0xAA32),
   (0xAA35, 0xAA36), (0xAA43, 0xAA43), (0xAA4C, 0xAA4C), (0xAA7C, 0xAA7C), (0xAAB0, 0xAAB0),
   (0xAAB2, 0xAAB4), (0xAAB7, 0xAAB8), (0xAABE, 0xAABF), (0xAAC1, 0xAAC1), (0xAAEC, 0xAAED),
   (0xAAF6, 0xAAF6), (0xABE5, 0xABE5), (0xABE8, 0xABE8), (0xABED, 0xABED), (0xFB1E, 0xFB1E),
   (0xFE00, 0xFE0F), (0xFE20, 0xFE2F), (0x101FD, 0x101FD), (0x102E0, 0x102E0), (0x10376, 0x1037A),
   (0x10A01, 0x10A03), (0x10A05, 0x10A06), (0x10A0C, 0x10A0F), (0x10A38, 0x10A3A), (0x10A3F, 0x10A3F),
   (0x10AE5, 0x10AE6), (0x10D24, 0x10D27), (0x10EAB, 0x10EAC), (0x10EFD, 0x10EFF), (0x10F46, 0x10F50),
   (0x10F82, 0x10F85), (0x11001, 0x11001), (0x11038, 0x11046), (0x11070, 0x11070), (0x11073, 0x11074),
   (0x1107F, 0x11081), (0x110B3, 0x110B6), (0x110B9, 0x110BA), (0x110C2, 0x110C2), (0x11100, 0x11102),
   (0x11127, 0x1112B), (0x1112D, 0x11134), (0x11173, 0x11173), (0x11180, 0x11181), (0x111B6, 0x111BE),
   (0x111C9, 0x111CC), (0x111CF, 0x111CF), (0x1122F, 0x11231), (0x11234, 0x11234), (0x11236, 0x11237),
   (0x1123E, 0x1123E), (0x11241, 0x11241), (0x112DF, 0x112DF), (0x112E3, 0x112EA), (0x11300, 0x11301),
   (0x1133B, 0x1133C), (0x11340, 0x11340), (0x11366, 0x1136C), (0x11370, 0x11374), (0x11438, 0x1143F),
   (0x11442, 0x11444), (0x11446, 0x11446), (0x1145E, 0x1145E), (0x114B3, 0x114B8), (0x114BA, 0x114BA),
   (0x114BF, 0x114C0), (0x114C2, 0x114C3), (0x115B2, 0x115B5), (0x115BC, 0x115BD), (0x115BF, 0x115C0),
   (0x115DC, 0x115DD), (0x11633, 0x1163A), (0x1163D, 0x1163D), (0x1163F, 0x11640), (0x116AB, 0x116AB),
   (0x116AD, 0x116AD), (0x116B0, 0x116B5), (0x116B7, 0x116B7), (0x1171D, 0x1171D), (0x1171F, 0x1171F),
   (0x11722, 0x11725), (0x11727, 0x1172B), (0x1182F, 0x11837), (0x11839, 0x1183A), (0x1193B, 0x1193C),
   (0x1193E, 0x1193E), (0x11943, 0x11943), (0x119D4, 0x119D7), (0x119DA, 0x119DB), (0x119E0, 0x119E0),
   (0x11A01, 0x11A0A), (0x11A33, 0x11A38), (0x11A3B, 0x11A3E), (0x11A47, 0x11A47), (0x11A51, 0x11A56),
   (0x11A59, 0x11A5B), (0x11A8A, 0x11A96), (0x11A98, 0x11A99), (0x11C30, 0x11C36), (0x11C38, 0x11C3D),
   (0x11C3F, 0x11C3F), (0x11C92, 0x11CA7), (0x11CAA, 0x11CB0), (0x11CB2, 0x11CB3), (0x11CB5, 0x11CB6),
   (0x11D31, 0x11D36), (0x11D3A, 0x11D3A), (0x11D3C, 0x11D3D), (0x11D3F, 0x11D45), (0x11D47, 0x11D47),
   (0x11D90, 0x11D91), (0x11D95, 0x11D95), (0x11D97, 0x11D97), (0x11EF3, 0x11EF4), (0x11F00, 0x11F01),
   (0x11F36, 0x11F3A), (0x11F40, 0x11F40), (0x11F42, 0x11F42), (0x13440, 0x13440), (0x13447, 0x13455),
   (0x16AF0, 0x16AF4), (0x16B30, 0x16B36), (0x16F4F, 0x16F4F), (0x16F8F, 0x16F92), (0x16FE4, 0x16FE4),
   (0x1BC9D, 0x1BC9E), (0x1CF00, 0x1CF2D), (0x1CF30, 0x1CF46), (0x1D167, 0x1D169), (0x1D17B, 0x1D182),
   (0x1D185, 0x1D18B), (0x1D1AA, 0x1D1AD), (0x1D242, 0x1D244), (0x1DA00, 0x1DA36), (0x1DA3B, 0x1DA6C),
   (0x1DA75, 0x1DA75), (0x1DA84, 0x1DA84), (0x1DA9B, 0x1DA9F), (0x1DAA1, 0x1DAAF), (0x1E000, 0x1E006),
   (0x1E008, 0x1E018), (0x1E01B, 0x1E021), (0x1E023, 0x1E024), (0x1E026, 0x1E02A), (0x1E08F, 0x1E08F),
   (0x1E130, 0x1E136), (0x1E2AE, 0x1E2AE), (0x1E2EC, 0x1E2EF), (0x1E4EC, 0x1E4EF), (0x1E8D0, 0x1E8D6),
   (0x1E944, 0x1E94A), (0xE0100, 0xE01EF)]

/-- Go `unicode.Is(unicode.Mn, r)`. -/
def isMn (r : Nat) : Bool :=
  Mn.any (fun p => p.1 ≤ r && r ≤ p.2)

end unicode

namespace strings

/-- The loop of `strings.FieldsFunc(s, unicode.IsSpace)` over the decoded runes: `cur`
holds the bytes of the field being read. -/
def fieldsAux : List (Nat × GoString) → GoString → List GoString
  | [], cur => if cur = [] then [] else [cur]
  | (r, bs) :: rest, cur =>
    if unicode.IsSpace r then
      (if cur = [] then fieldsAux rest [] else cur :: fieldsAux rest [])
    else fieldsAux rest (cur ++ bs)

/-- Go `strings.Fields`: the maximal runs of non-space runes of `s`, as substrings. -/
def Fields (s : GoString) : List GoString :=
  fieldsAux (utf8.range s) []

/-- Go `strings.Map`: every rune of `s` is replaced by its image under `mapping` and
written in UTF-8; a rune with a negative image is dropped. -/
def Map (mapping : Nat → Int) (s : GoString) : GoString :=
  (utf8.range s).flatMap (fun p =>
    if 0 ≤ mapping p.1 then utf8.EncodeRune (mapping p.1).toNat else [])

end strings

namespace printer

/-- The type `LabelData`: the data for a single label. -/
structure LabelData where
  Name : GoString
  Company : GoString
  Role : GoString
  EmployeeID : GoString

/-- The type `ZPLLabelGenerator`. -/
structure ZPLLabelGenerator where
  labelWidth : Int
  labelHeight : Int
  baseURL : GoString

/-- The constructor `NewZPLLabelGenerator`. -/
def NewZPLLabelGenerator (baseURL : GoString) : ZPLLabelGenerator :=
  { labelWidth := 609, labelHeight := 406, baseURL := baseURL }

/-- A `case` list of rune literals: whether `r` is one of `cs`. -/
def oneOf (r : Nat) (cs : List Char) : Bool :=
  cs.any (fun c => c.toNat == r)

/-- The function literal passed to `strings.Map` in `normalizeText`. -/
def normalizeRune (r : Nat) : Int :=
  if oneOf r ['á', 'à', 'ã', 'â', 'ä', 'Á', 'À', 'Ã', 'Â', 'Ä'] then ('a'.toNat : Int)
  else if oneOf r ['é', 'è', 'ê', 'ë', 'É', 'È', 'Ê', 'Ë'] then ('e'.toNat : Int)
  else if oneOf r ['í', 'ì', 'î', 'ï', 'Í', 'Ì', 'Î', 'Ï'] then ('i'.toNat : Int)
  else if oneOf r ['ó', 'ò', 'õ', 'ô', 'ö', 'Ó', 'Ò', 'Õ', 'Ô', 'Ö'] then ('o'.toNat : Int)
  else if oneOf r ['ú', 'ù', 'û', 'ü', 'Ú', 'Ù', 'Û', 'Ü'] then ('u'.toNat : Int)
  else if oneOf r ['ý', 'ÿ', 'Ý', 'Ÿ'] then ('y'.toNat : Int)
  else if oneOf r ['ñ', 'Ñ'] then ('n'.toNat : Int)
  else if oneOf r ['ç', 'Ç'] then ('c'.toNat : Int)
  else if unicode.isMn r then -1
  else (r : Int)

/-- The method `normalizeText` (it does not read its receiver). -/
def normalizeText (text : GoString) : GoString :=
  strings.Map normalizeRune text

/-- The function literal of `normalizeText` with the table behind
`unicode.Is(unicode.Mn, r)` taken as the parameter `isMn`. -/
def normalizeRuneWith (isMn : Nat → Bool) (r : Nat) : Int :=
  if oneOf r ['á', 'à', 'ã', 'â', 'ä', 'Á', 'À', 'Ã', 'Â', 'Ä'] then ('a'.toNat : Int)
  else if oneOf r ['é', 'è', 'ê', 'ë', 'É', 'È', 'Ê', 'Ë'] then ('e'.toNat : Int)
  else if oneOf r ['í', 'ì', 'î', 'ï', 'Í', 'Ì', 'Î', 'Ï'] then ('i'.toNat : Int)
  else if oneOf r ['ó', 'ò', 'õ', 'ô', 'ö', 'Ó', 'Ò', 'Õ', 'Ô', 'Ö'] then ('o'.toNat : Int)
  else if oneOf r ['ú', 'ù', 'û', 'ü', 'Ú', 'Ù', 'Û', 'Ü'] then ('u'.toNat : Int)
  else if oneOf r ['ý', 'ÿ', 'Ý', 'Ÿ'] then ('y'.toNat : Int)
  else if oneOf r ['ñ', 'Ñ'] then ('n'.toNat : Int)
  else if oneOf r ['ç', 'Ç'] then ('c'.toNat : Int)
  else if isMn r then -1
  else (r : Int)

/-- The method `normalizeText` with the table behind `unicode.Is(unicode.Mn, r)` taken
as the parameter `isMn`; `normalizeText` is `normalizeTextWith unicode.isMn`. -/
def normalizeTextWith (isMn : Nat → Bool) (text : GoString) : GoString :=
  strings.Map (normalizeRuneWith isMn) text

/-- The first statement of `wrapText`: `charsPerLine := maxWidth / (fontWidth / 2)`, in
integer arithmetic. -/
def charsPerLine (maxWidth fontWidth : Int) : Option Int :=
  goDiv maxWidth (Int.tdiv fontWidth 2)

/-- The body of the `for _, word := range words` loop of `wrapText`, run in the state
`(lines, currentLine)`: the new state, and whether the body ended in `break`. -/
def wrapBody (charsPerLine : Int) (lines : List GoString) (currentLine word : GoString) :
    Option (List GoString × GoString × Bool) :=
  let testLine := (if currentLine ≠ [] then currentLine ++ str " " else currentLine) ++ word
  if (utf8.RuneCountInString testLine : Int) ≤ charsPerLine then
    some (lines, testLine, false)
  else
    match (if currentLine ≠ [] then some (lines ++ [currentLine], word)
        else (sliceTo word (wrapInt (charsPerLine - 3))).map
          (fun head => (lines, head ++ str "..."))) with
    | none => none
    | some (lines1, currentLine1) =>
      if lines1.length ≥ 1 then
        some (if currentLine1 ≠ [] then lines1 ++ [currentLine1] else lines1, currentLine1, true)
      else some (lines1, currentLine1, false)

/-- The `for _, word := range words` loop of `wrapText`, from the state
`(lines, currentLine)`: the state when the loop is left, by exhausting the words or by
`break`. -/
def wrapLoop (charsPerLine : Int) :
    List GoString → List GoString → GoString → Option (List GoString × GoString)
  | [], lines, currentLine => some (lines, currentLine)
  | word :: rest, lines, currentLine =>
    match wrapBody charsPerLine lines currentLine word with
    | none => none
    | some (lines1, currentLine1, true) => some (lines1, currentLine1)
    | some (lines1, currentLine1, false) => wrapLoop charsPerLine rest lines1 currentLine1

/-- The method `wrapText` (it does not read its receiver). -/
def wrapText (text : GoString) (maxWidth fontHeight fontWidth : Int) :
    Option (List GoString) :=
  (charsPerLine maxWidth fontWidth).bind (fun cpl =>
    if (utf8.RuneCountInString text : Int) ≤ cpl then some [text]
    else
      (wrapLoop cpl (strings.Fields text) [] []).map (fun st =>
        let lines :=
          if st.2 ≠ [] ∧ st.1.length < 2 then st.1 ++ [st.2] else st.1
        lines.take (min lines.length 2)))

/-- The verb `%d` of `fmt.Sprintf`. -/
def fmtD (n : Int) : GoString :=
  str (toString n)

/-- One of the three `for i, line := range ...` loops of `GenerateZPL`, from index `i`
and offset `currentY`: what it writes to the builder. `title` and `font` are the parts
of the two format strings that differ between the loops. -/
def writeLines (title font : String) (textX advance : Int) :
    Nat → Int → List GoString → GoString
  | _, _, [] => []
  | i, currentY, line :: rest =>
    (str "REM *** " ++ str title ++ str " Line " ++ fmtD ((i : Int) + 1) ++ str " ***\n")
      ++ (str "^FO" ++ fmtD textX ++ str "," ++ fmtD currentY ++ str "^A0N," ++ str font
          ++ str "^FD" ++ line ++ str "^FS\n\n")
      ++ writeLines title font textX advance (i + 1) (currentY + advance) rest

/-- The method `GenerateZPL`. -/
def GenerateZPL (g : ZPLLabelGenerator) (data : LabelData) : Option GoString :=
  let name := normalizeText data.Name
  let company := normalizeText data.Company
  let role := normalizeText data.Role
  let qrSize : Int := 120
  let qrX := g.labelWidth - qrSize - 100
  let qrY : Int := 60
  let idX := qrX + Int.tdiv qrSize 2
  let idY := qrY + qrSize + 70
  let textX : Int := 12
  let maxTextWidth := qrX - textX - 15
  let nameStartY : Int := 25
  (wrapText name maxTextWidth 60 45).bind (fun nameLines =>
  (wrapText company maxTextWidth 45 35).bind (fun companyLines =>
  (wrapText role maxTextWidth 40 30).bind (fun roleLines =>
    let companyStartY := nameStartY + (nameLines.length : Int) * 65 + 15
    let roleStartY := companyStartY + (companyLines.length : Int) * 50 + 15
    let fullURL := g.baseURL ++ data.EmployeeID
    some (
      (str "^XA\n^MMT\n^PW" ++ fmtD g.labelWidth ++ str "\n^LL" ++ fmtD g.labelHeight
        ++ str "\n^LS0\n\n")
      ++ writeLines "Name" "60,45" textX 65 0 nameStartY nameLines
      ++ writeLines "Company" "45,35" textX 50 0 companyStartY companyLines
      ++ writeLines "Role" "40,30" textX 45 0 roleStartY roleLines
      ++ (str "REM *** QR Code ***\n^FO" ++ fmtD qrX ++ str "," ++ fmtD qrY
          ++ str "^BQN,2,5^FDQA," ++ fullURL ++ str "^FS\n\n")
      ++ (str "REM *** Employee ID ***\n^FO" ++ fmtD idX ++ str "," ++ fmtD idY
          ++ str "^A0N,28,22^FD" ++ data.EmployeeID ++ str "^FS\n\n^XZ")))))

end printer

/-! ## The statements of the specification -/

namespace spec

/-- The accent table as the specification describes it (the a/e/i/o/u/y/n/c families,
upper and lower case): the accented letters of each family, paired with the lower-case
base letter of the family. -/
def accentFamilies : List (List Char × Char) :=
  [(['á', 'à', 'ã', 'â', 'ä', 'Á', 'À', 'Ã', 'Â', 'Ä'], 'a'),
   (['é', 'è', 'ê', 'ë', 'É', 'È', 'Ê', 'Ë'], 'e'),
   (['í', 'ì', 'î', 'ï', 'Í', 'Ì', 'Î', 'Ï'], 'i'),
   (['ó', 'ò', 'õ', 'ô', 'ö', 'Ó', 'Ò', 'Õ', 'Ô', 'Ö'], 'o'),
   (['ú', 'ù', 'û', 'ü', 'Ú', 'Ù', 'Û', 'Ü'], 'u'),
   (['ý', 'ÿ', 'Ý', 'Ÿ'], 'y'),
   (['ñ', 'Ñ'], 'n'),
   (['ç', 'Ç'], 'c')]

/-- The initialization header: `^XA`, `^MMT`, `^PW609`, `^LL406`, `^LS0`. -/
def header : GoString :=
  str "^XA\n^MMT\n^PW609\n^LL406\n^LS0\n\n"

/-- The REM comment line that precedes the placement of line `i` (0-based) of a block. -/
def remark (title : String) (i : Nat) : GoString :=
  str "REM *** " ++ str title ++ str " Line " ++ printer.fmtD ((i : Int) + 1) ++ str " ***\n"

/-- One text placement: field origin `(x, y)`, font `height,width`, field data `line`,
terminated by `^FS`. -/
def placement (x y : Int) (font : String) (line : GoString) : GoString :=
  str "^FO" ++ printer.fmtD x ++ str "," ++ printer.fmtD y ++ str "^A0N," ++ str font
    ++ str "^FD" ++ line ++ str "^FS\n\n"

/-- A block of text: for each line `i` (0-based) one placement at `x = 12`,
`y = start + advance * i`. -/
def block (title font : String) (start advance : Int) (lines : List GoString) : GoString :=
  lines.enum.flatMap (fun p =>
    remark title p.1 ++ placement 12 (start + advance * (p.1 : Int)) font p.2)

/-- The start offset of the Company block: `25 + 65 * (number of Name lines) + 15`. -/
def companyStart (nameLines : List GoString) : Int :=
  25 + 65 * (nameLines.length : Int) + 15

/-- The start offset of the Role block:
`companyStart + 50 * (number of Company lines) + 15`. -/
def roleStart (nameLines companyLines : List GoString) : Int :=
  companyStart nameLines + 50 * (companyLines.length : Int) + 15

/-- The barcode placement, carrying `payload`. -/
def barcode (payload : GoString) : GoString :=
  str "REM *** QR Code ***\n^FO389,60^BQN,2,5^FDQA," ++ payload ++ str "^FS\n\n"

/-- The caption placement, carrying `caption`. -/
def caption (caption : GoString) : GoString :=
  str "REM *** Employee ID ***\n^FO449,250^A0N,28,22^FD" ++ caption ++ str "^FS\n\n"

/-- The stream the specification describes for given wrapped lines of the three fields:
header, Name block, Company block, Role block, barcode, caption, `^XZ`. -/
def stream (nameLines companyLines roleLines : List GoString)
    (payload employeeID : GoString) : GoString :=
  header
    ++ block "Name" "60,45" 25 65 nameLines
    ++ block "Company" "45,35" (companyStart nameLines) 50 companyLines
    ++ block "Role" "40,30" (roleStart nameLines companyLines) 45 roleLines
    ++ barcode payload
    ++ caption employeeID
    ++ str "^XZ"

end spec

namespace spec

/-- Whether `pat` stands at the beginning of `s`. -/
def startsWith : GoString → GoString → Bool
  | [], _ => true
  | _ :: _, [] => false
  | a :: pat, b :: s => a == b && startsWith pat s

/-- The number of positions of `s` at which `pat` occurs. -/
def occurrences (pat : GoString) : GoString → Nat
  | [] => if pat = [] then 1 else 0
  | b :: s => (if startsWith pat (b :: s) then 1 else 0) + occurrences pat s

/-- Whether every `^` (byte 0x5E) of `u` has at least two more bytes after it in `u`. -/
def caretsInside : GoString → Bool
  | [] => true
  | b :: u => (b != 0x5E || decide (2 ≤ u.length)) && caretsInside u

/-- A neutral piece of a stream: its carets are followed by two bytes of the piece, and
neither `^XA` nor `^XZ` occurs in it. -/
def neutral (u : GoString) : Bool :=
  caretsInside u && occurrences (str "^XA") u == 0 && occurrences (str "^XZ") u == 0

end spec

/-! ## The connection manager -/

namespace printer

/-- A socket (`net.Conn`), named by a number. -/
abbrev Conn := Nat

/-- An operation on the network, as it is recorded in the trace: a write on a socket with
its outcome, a dial to an address with the socket obtained (or none on failure), the
closing of a socket. -/
inductive NetOp where
  | write (c : Conn) (data : GoString) (ok : Bool)
  | dial (address : GoString) (result : Option Conn)
  | close (c : Conn)
  deriving DecidableEq

/-- The network the code runs against: `outcome n` tells whether the `n`-th write or dial
succeeds, `ops` counts the writes and dials made so far, `nextConn` is the socket the
next successful dial returns, `trace` lists the operations made so far, oldest first. -/
structure Net where
  outcome : Nat → Bool
  ops : Nat
  nextConn : Conn
  trace : List NetOp

/-- The call `conn.Write(data)`: whether it succeeded, and the network afterwards. -/
def Net.write (n : Net) (c : Conn) (data : GoString) : Bool × Net :=
  (n.outcome n.ops,
    { n with ops := n.ops + 1, trace := n.trace ++ [NetOp.write c data (n.outcome n.ops)] })

/-- The call `net.DialTimeout("tcp", address, 10*time.Second)`: the new socket, or none
on failure, and the network afterwards. -/
def Net.dial (n : Net) (address : GoString) : Option Conn × Net :=
  if n.outcome n.ops then
    (some n.nextConn,
      { n with ops := n.ops + 1, nextConn := n.nextConn + 1,
               trace := n.trace ++ [NetOp.dial address (some n.nextConn)] })
  else
    (none, { n with ops := n.ops + 1, trace := n.trace ++ [NetOp.dial address none] })

/-- The call `conn.Close()`; every caller discards its result. -/
def Net.close (n : Net) (c : Conn) : Net :=
  { n with trace := n.trace ++ [NetOp.close c] }

/-- The number of write operations in a trace. -/
def writes (ops : List NetOp) : Nat :=
  (ops.filter (fun o => match o with
    | NetOp.write _ _ _ => true
    | _ => false)).length

/-- The number of dial operations in a trace. -/
def dials (ops : List NetOp) : Nat :=
  (ops.filter (fun o => match o with
    | NetOp.dial _ _ => true
    | _ => false)).length

/-- The `error` values the connection manager returns, one constructor per message. -/
inductive PrintError where
  | connectFailed
  | notEstablished
  | reconnectFailed
  | sendFailed
  | alreadyExists (tag : GoString)
  | addFailed (tag : GoString)
  | notFound (tag : GoString)
  deriving DecidableEq

/-- The type `PrinterConnection`: `conn` is `none` for a nil socket. -/
structure PrinterConnection where
  conn : Option Conn
  printerIP : GoString
  deriving DecidableEq

/-- The constructor `NewPrinterConnection`. -/
def NewPrinterConnection (printerIP : GoString) (n : Net) :
    Except PrintError PrinterConnection × Net :=
  match n.dial (printerIP ++ str ":9100") with
  | (none, n1) => (Except.error PrintError.connectFailed, n1)
  | (some conn, n1) => (Except.ok { conn := some conn, printerIP := printerIP }, n1)

/-- The method `PrinterConnection.Close`. -/
def PrinterConnection.Close (p : PrinterConnection) (n : Net) : Net :=
  match p.conn with
  | some c => n.close c
  | none => n

/-- The method `PrinterConnection.PrintLabel`: the error returned (`none` for nil), the
connection and the network afterwards. -/
def PrinterConnection.PrintLabel (p : PrinterConnection) (zplCommand : GoString) (n : Net) :
    Option PrintError × PrinterConnection × Net :=
  match p.conn with
  | none => (some PrintError.notEstablished, p, n)
  | some c =>
    match n.write c zplCommand with
    | (true, n1) => (none, p, n1)
    | (false, n1) =>
      match n1.dial (p.printerIP ++ str ":9100") with
      | (none, n2) => (some PrintError.reconnectFailed, p, n2)
      | (some conn, n2) =>
        match (n2.close c).write conn zplCommand with
        | (false, n3) => (some PrintError.sendFailed, { p with conn := some conn }, n3)
        | (true, n3) => (none, { p with conn := some conn }, n3)

/-- The type `PrinterManager`: the map `printers` as the list of its entries, in the
order in which `range` visits them. -/
structure PrinterManager where
  printers : List (GoString × PrinterConnection)
  deriving DecidableEq

/-- The constructor `NewPrinterManager`. -/
def NewPrinterManager : PrinterManager :=
  { printers := [] }

/-- The map index expression `pm.printers[tag]` with its `exists` flag. -/
def PrinterManager.get (pm : PrinterManager) (tag : GoString) : Option PrinterConnection :=
  (pm.printers.find? (fun e => e.1 = tag)).map (fun e => e.2)

/-- The statement `delete(pm.printers, tag)`. -/
def PrinterManager.delete (pm : PrinterManager) (tag : GoString) : PrinterManager :=
  { printers := pm.printers.filter (fun e => ¬ e.1 = tag) }

/-- The assignment `pm.printers[tag] = conn`. -/
def PrinterManager.set (pm : PrinterManager) (tag : GoString) (p : PrinterConnection) :
    PrinterManager :=
  if (pm.get tag).isSome then
    { printers := pm.printers.map (fun e => if e.1 = tag then (e.1, p) else e) }
  else { printers := pm.printers ++ [(tag, p)] }

/-- The method `AddPrinter` (the line it prints on success is not modelled). -/
def PrinterManager.AddPrinter (pm : PrinterManager) (tag ip : GoString) (n : Net) :
    Option PrintError × PrinterManager × Net :=
  match pm.get tag with
  | some _ => (some (PrintError.alreadyExists tag), pm, n)
  | none =>
    match NewPrinterConnection ip n with
    | (Except.error _, n1) => (some (PrintError.addFailed tag), pm, n1)
    | (Except.ok conn, n1) => (none, pm.set tag conn, n1)

/-- The method `RemovePrinter` (the line it prints on success is not modelled). -/
def PrinterManager.RemovePrinter (pm : PrinterManager) (tag : GoString) (n : Net) :
    Option PrintError × PrinterManager × Net :=
  match pm.get tag with
  | some printer => (none, pm.delete tag, printer.Close n)
  | none => (some (PrintError.notFound tag), pm, n)

/-- The method `PrinterManager.PrintLabel`; the map holds pointers, so what the
connection's `PrintLabel` changes in the connection is seen in the map. -/
def PrinterManager.PrintLabel (pm : PrinterManager) (tag zplCommand : GoString) (n : Net) :
    Option PrintError × PrinterManager × Net :=
  match pm.get tag with
  | none => (some (PrintError.notFound tag), pm, n)
  | some printer =>
    match printer.PrintLabel zplCommand n with
    | (err, printer1, n1) => (err, pm.set tag printer1, n1)

/-- The loop `for tag, printer := range pm.printers` of `PrinterManager.Close` over the
entries still to visit. -/
def PrinterManager.closeLoop :
    List (GoString × PrinterConnection) → PrinterManager → Net → PrinterManager × Net
  | [], pm, n => (pm, n)
  | (tag, printer) :: rest, pm, n =>
    PrinterManager.closeLoop rest (pm.delete tag) (printer.Close n)

/-- The method `PrinterManager.Close`. -/
def PrinterManager.Close (pm : PrinterManager) (n : Net) : PrinterManager × Net :=
  PrinterManager.closeLoop pm.printers pm n

end printer

namespace spec

/-- The text placements of a stream whose Name, Company and Role blocks have `n`, `m` and
`k` lines, in the order of the stream: the vertical offset of each line paired with the
height of its font (60, 45, 40). -/
def textPlacements (n m k : Nat) : List (Int × Int) :=
  (List.range n).map (fun i => ((25 : Int) + 65 * (i : Int), (60 : Int)))
    ++ (List.range m).map (fun i => ((25 : Int) + 65 * (n : Int) + 15 + 50 * (i : Int), (45 : Int)))
    ++ (List.range k).map (fun i =>
        ((25 : Int) + 65 * (n : Int) + 15 + 50 * (m : Int) + 15 + 45 * (i : Int), (40 : Int)))

end spec

/-! ## UTF-8 decoding and encoding -/

namespace utf8

theorem decode_width_pos (b : Nat) (s : GoString) :
    1 ≤ (DecodeRuneInString (b :: s)).2 := by
  unfold DecodeRuneInString
  repeat' split
  all_goals simp_all

theorem decode_two (s0 s1 : Nat) (t : GoString) (h0 : 0xC2 ≤ s0 ∧ s0 < 0xE0)
    (h1 : 0x80 ≤ s1 ∧ s1 ≤ 0xBF) :
    DecodeRuneInString (s0 :: s1 :: t) = (s0 % 32 * 64 + s1 % 64, 2) := by
  simp only [DecodeRuneInString]
  split_ifs <;> first | rfl | omega

theorem decode_three (s0 s1 s2 : Nat) (t : GoString) (h0 : 0xE0 ≤ s0 ∧ s0 < 0xF0)
    (h1 : (if s0 = 0xE0 then 0xA0 else 0x80) ≤ s1 ∧ s1 ≤ (if s0 = 0xED then 0x9F else 0xBF))
    (h2 : 0x80 ≤ s2 ∧ s2 ≤ 0xBF) :
    DecodeRuneInString (s0 :: s1 :: s2 :: t)
      = (s0 % 16 * 4096 + s1 % 64 * 64 + s2 % 64, 3) := by
  simp only [DecodeRuneInString]
  rw [if_neg (by omega), if_neg (by omega), if_neg (by omega), if_pos (by omega),
    if_pos ⟨h1.1, h1.2, h2.1, h2.2⟩]

theorem decode_four (s0 s1 s2 s3 : Nat) (t : GoString) (h0 : 0xF0 ≤ s0 ∧ s0 < 0xF5)
    (h1 : (if s0 = 0xF0 then 0x90 else 0x80) ≤ s1 ∧ s1 ≤ (if s0 = 0xF4 then 0x8F else 0xBF))
    (h2 : 0x80 ≤ s2 ∧ s2 ≤ 0xBF) (h3 : 0x80 ≤ s3 ∧ s3 ≤ 0xBF) :
    DecodeRuneInString (s0 :: s1 :: s2 :: s3 :: t)
      = (s0 % 8 * 262144 + s1 % 64 * 4096 + s2 % 64 * 64 + s3 % 64, 4) := by
  simp only [DecodeRuneInString]
  rw [if_neg (by omega), if_neg (by omega), if_neg (by omega), if_neg (by omega),
    if_pos (by omega), if_pos ⟨h1.1, h1.2, h2.1, h2.2, h3.1, h3.2⟩]

theorem decode_encode (r : Nat) (h : Nat.isValidChar r) (t : GoString) :
    DecodeRuneInString (EncodeRune r ++ t) = (r, (EncodeRune r).length) := by
  unfold Nat.isValidChar at h
  unfold EncodeRune
  split
  · simp [DecodeRuneInString]; omega
  split
  · rw [List.cons_append, List.cons_append, List.nil_append,
      decode_two _ _ _ (by omega) (by omega)]
    simp only [List.length_cons, List.length_nil, Prod.mk.injEq, and_true]
    omega
  split
  · omega
  split
  · rw [List.cons_append, List.cons_append, List.cons_append, List.nil_append,
      decode_three _ _ _ _ (by omega) (by split_ifs <;> omega) (by omega)]
    simp only [List.length_cons, List.length_nil, Prod.mk.injEq, and_true]
    omega
  · rw [List.cons_append, List.cons_append, List.cons_append, List.cons_append,
      List.nil_append,
      decode_four _ _ _ _ _ (by omega) (by split_ifs <;> omega) (by omega) (by omega)]
    simp only [List.length_cons, List.length_nil, Prod.mk.injEq, and_true]
    omega

end utf8

namespace utf8

theorem decode_width_le (s : GoString) :
    (DecodeRuneInString s).2 ≤ s.length := by
  unfold DecodeRuneInString
  repeat' split
  all_goals simp_all

theorem decode_valid (s : GoString) :
    Nat.isValidChar (DecodeRuneInString s).1 := by
  unfold DecodeRuneInString Nat.isValidChar RuneError
  repeat' split
  all_goals simp only []
  all_goals omega

end utf8

namespace utf8

theorem rangeAux_fuel (n : Nat) : ∀ (m : Nat) (s : GoString),
    s.length ≤ n → s.length ≤ m → rangeAux n s = rangeAux m s := by
  induction n with
  | zero =>
    intro m s hn _
    have hs : s = [] := List.length_eq_zero.mp (by omega)
    subst hs
    cases m <;> simp [rangeAux]
  | succ n ih =>
    intro m s hn hm
    cases s with
    | nil => cases m <;> simp [rangeAux]
    | cons b t =>
      cases m with
      | zero => simp at hm
      | succ m =>
        have hw := decode_width_pos b t
        simp only [rangeAux, List.cons_ne_nil, if_false]
        rw [ih m _ (by simp only [List.length_drop, List.length_cons] at *; omega)
          (by simp only [List.length_drop, List.length_cons] at *; omega)]

theorem range_nil : range [] = [] := rfl

theorem range_cons (b : Nat) (t : GoString) :
    range (b :: t) = ((DecodeRuneInString (b :: t)).1,
        (b :: t).take (DecodeRuneInString (b :: t)).2)
      :: range ((b :: t).drop (DecodeRuneInString (b :: t)).2) := by
  have hw := decode_width_pos b t
  unfold range
  simp only [List.length_cons, rangeAux, List.cons_ne_nil, if_false]
  rw [rangeAux_fuel t.length _ _ (by simp only [List.length_drop, List.length_cons]; omega)
    (le_refl _)]

theorem encode_ne_nil (r : Nat) : EncodeRune r ≠ [] := by
  unfold EncodeRune
  split_ifs <;> simp

theorem range_encode_append (r : Nat) (h : Nat.isValidChar r) (t : GoString) :
    range (EncodeRune r ++ t) = (r, EncodeRune r) :: range t := by
  obtain ⟨b, u, hbu⟩ := List.exists_cons_of_ne_nil (encode_ne_nil r)
  have hd := decode_encode r h t
  rw [hbu, List.cons_append, range_cons, ← List.cons_append, ← hbu, hd]
  simp

theorem rangeAux_length_le (n : Nat) : ∀ s : GoString, (rangeAux n s).length ≤ s.length := by
  induction n with
  | zero => intro s; simp [rangeAux]
  | succ n ih =>
    intro s
    cases s with
    | nil => simp [rangeAux]
    | cons b t =>
      have hw := decode_width_pos b t
      have hl := ih ((b :: t).drop (DecodeRuneInString (b :: t)).2)
      simp only [rangeAux, List.cons_ne_nil, if_false, List.length_cons]
      simp only [List.length_drop, List.length_cons] at hl
      omega

theorem RuneCountInString_le_length (s : GoString) : RuneCountInString s ≤ s.length :=
  rangeAux_length_le _ s

theorem rangeAux_valid (n : Nat) : ∀ (s : GoString) (p : Nat × GoString),
    p ∈ rangeAux n s → Nat.isValidChar p.1 := by
  induction n with
  | zero => intro s p hp; simp [rangeAux] at hp
  | succ n ih =>
    intro s p hp
    cases s with
    | nil => simp [rangeAux] at hp
    | cons b t =>
      simp only [rangeAux, List.cons_ne_nil, if_false, List.mem_cons] at hp
      rcases hp with hp | hp
      · rw [hp]; exact decode_valid _
      · exact ih _ p hp

theorem range_valid (s : GoString) (p : Nat × GoString) (hp : p ∈ range s) :
    Nat.isValidChar p.1 :=
  rangeAux_valid _ s p hp

end utf8

/-! ## The normaliser -/

namespace strings

theorem Map_eq (f : Nat → Int) (s : GoString) :
    Map f s = (utf8.range s).flatMap (fun p =>
      if 0 ≤ f p.1 then utf8.EncodeRune (f p.1).toNat else []) := rfl

/-- Mapping the concatenated encodings of valid runes: the runes are read back one by
one. -/
theorem Map_flatMap_encode (f : Nat → Int) (rs : List Nat)
    (h : ∀ r ∈ rs, Nat.isValidChar r) :
    Map f (rs.flatMap utf8.EncodeRune)
      = rs.flatMap (fun r => if 0 ≤ f r then utf8.EncodeRune (f r).toNat else []) := by
  induction rs with
  | nil => rfl
  | cons r rs ih =>
    have hr := h r (List.mem_cons_self _ _)
    have ih := ih (fun x hx => h x (List.mem_cons_of_mem _ hx))
    rw [Map_eq] at ih ⊢
    simp only [List.flatMap_cons]
    rw [utf8.range_encode_append r hr, List.flatMap_cons, ih]

/-- The output of `Map` is the concatenation of the encodings of the images. -/
theorem Map_eq_flatMap_encode (f : Nat → Int) (s : GoString) :
    Map f s = (((utf8.range s).map (fun p => f p.1)).filter (fun x => decide (0 ≤ x))).flatMap
      (fun x => utf8.EncodeRune x.toNat) := by
  rw [Map_eq]
  induction utf8.range s with
  | nil => rfl
  | cons p l ih =>
    simp only [List.flatMap_cons, List.map_cons, List.filter_cons, ih]
    split_ifs with h1 h2 h2
    · rfl
    · simp at h2; omega
    · simp at h2; omega
    · rfl

end strings

namespace strings

/-- The runes written by `Map f s`. -/
theorem Map_eq_images (f : Nat → Int) (s : GoString) :
    Map f s = ((((utf8.range s).map (fun p => f p.1)).filter
      (fun x => decide (0 ≤ x))).map Int.toNat).flatMap utf8.EncodeRune := by
  rw [Map_eq_flatMap_encode, List.flatMap_map]

/-- A mapping whose non-negative images are valid runes that it leaves fixed gives an
idempotent `Map`. -/
theorem Map_idempotent (f : Nat → Int)
    (hf : ∀ r, Nat.isValidChar r → 0 ≤ f r →
      Nat.isValidChar (f r).toNat ∧ f (f r).toNat = f r)
    (s : GoString) : Map f (Map f s) = Map f s := by
  have key : ∀ r ∈ (((utf8.range s).map (fun p => f p.1)).filter
      (fun x => decide (0 ≤ x))).map Int.toNat, Nat.isValidChar r ∧ f r = (r : Int) := by
    intro r hr
    simp only [List.mem_map, List.mem_filter, decide_eq_true_eq] at hr
    obtain ⟨x, ⟨⟨p, hp, hpx⟩, hx0⟩, hxr⟩ := hr
    have hv := utf8.range_valid s p hp
    have h2 := hf p.1 hv (by rw [hpx]; exact hx0)
    rw [hpx, hxr] at h2
    refine ⟨h2.1, ?_⟩
    rw [h2.2, ← hxr]
    exact (Int.toNat_of_nonneg hx0).symm
  rw [Map_eq_images f s, Map_flatMap_encode f _ (fun r hr => (key r hr).1)]
  apply List.flatMap_congr
  intro r hr
  rw [(key r hr).2]
  simp
  
end strings

namespace printer

theorem normalizeRune_cases (r : Nat) :
    normalizeRune r = -1 ∨ normalizeRune r = (r : Int)
      ∨ normalizeRune r ∈ ([97, 101, 105, 111, 117, 121, 110, 99] : List Int) := by
  unfold normalizeRune
  repeat' split
  all_goals first
    | exact Or.inl rfl
    | exact Or.inr (Or.inl rfl)
    | exact Or.inr (Or.inr (by decide))

theorem normalizeRune_fixed (r : Nat) (hv : Nat.isValidChar r) (h0 : 0 ≤ normalizeRune r) :
    Nat.isValidChar (normalizeRune r).toNat
      ∧ normalizeRune (normalizeRune r).toNat = normalizeRune r := by
  rcases normalizeRune_cases r with h | h | h
  · omega
  · rw [h, Int.toNat_ofNat]; exact ⟨hv, h⟩
  · generalize normalizeRune r = x at h
    simp only [List.mem_cons, List.mem_singleton, List.mem_nil_iff, or_false] at h
    rcases h with h | h | h | h | h | h | h | h <;> subst h <;> exact ⟨by decide, by decide⟩

theorem str_append (a b : String) : str (a ++ b) = str a ++ str b := by
  simp [str, String.data_append, List.flatMap_append]

theorem normalizeText_str (s : String) :
    normalizeText (str s) = s.data.flatMap (fun c =>
      if 0 ≤ normalizeRune c.toNat then utf8.EncodeRune (normalizeRune c.toNat).toNat
      else []) := by
  have h : str s = (s.data.map Char.toNat).flatMap utf8.EncodeRune := by
    simp [str, List.flatMap_map]
  rw [h, normalizeText, strings.Map_flatMap_encode, List.flatMap_map]
  intro r hr
  obtain ⟨c, _, hc⟩ := List.mem_map.mp hr
  rw [← hc]
  exact c.valid

theorem normalizeText_append (a b : String) :
    normalizeText (str (a ++ b)) = normalizeText (str a) ++ normalizeText (str b) := by
  simp [normalizeText_str, String.data_append, List.flatMap_append]

theorem oneOf_eq_true_iff (c : Char) (cs : List Char) :
    oneOf c.toNat cs = true ↔ c ∈ cs := by
  unfold oneOf
  simp only [List.any_eq_true, beq_iff_eq]
  constructor
  · rintro ⟨d, hd, hdc⟩
    have : d = c := by rw [← Char.ofNat_toNat d, ← Char.ofNat_toNat c, hdc]
    exact this ▸ hd
  · intro h
    exact ⟨c, h, rfl⟩

/-- C5. `normalizeText` is idempotent on every string (well-formed UTF-8 or not):
normalising a normalised text changes nothing. -/
theorem normalizeText_idempotent (s : GoString) :
    normalizeText (normalizeText s) = normalizeText s :=
  strings.Map_idempotent normalizeRune normalizeRune_fixed s

theorem normalizeRune_family :
    ∀ fam ∈ spec.accentFamilies, ∀ c ∈ fam.1, normalizeRune c.toNat = (fam.2.toNat : Int) := by
  decide

/-- What the code does at the accent table: every accented letter of the table, upper or
lower case, is replaced by the lower-case base letter of its family, wherever it stands
in a text. -/
theorem normalizeText_accent (fam : List Char × Char) (hfam : fam ∈ spec.accentFamilies)
    (c : Char) (hc : c ∈ fam.1) (before after : String) :
    normalizeText (str (before ++ String.mk [c] ++ after))
      = normalizeText (str before) ++ str (String.mk [fam.2])
          ++ normalizeText (str after) := by
  have hcb : normalizeText (str (String.mk [c])) = str (String.mk [fam.2]) := by
    rw [normalizeText_str]
    simp only [List.flatMap_cons, List.flatMap_nil, List.append_nil]
    rw [normalizeRune_family fam hfam c hc]
    simp [str]
  rw [normalizeText_append, normalizeText_append, hcb]

/-- The accent table at `É` inside `JosÉ!`. -/
theorem normalizeText_accent_witness :
    normalizeText (str ("Jos" ++ String.mk ['É'] ++ "!"))
      = normalizeText (str "Jos") ++ str (String.mk ['e']) ++ normalizeText (str "!") :=
  normalizeText_accent (['é', 'è', 'ê', 'ë', 'É', 'È', 'Ê', 'Ë'], 'e') (by decide) 'É'
    (by decide) "Jos" "!"

/-- C6, the code at upper-case accented letters. The accent is removed but the base letter
is not kept: `É` gives `e`, not `E`; `Ñ` gives `n`, not `N`; `Ç` gives `c`, not `C`; and
the Name `Émile` is printed as `emile`. -/
theorem normalizeText_upper_case_folded :
    normalizeText (str "É") = str "e" ∧ normalizeText (str "É") ≠ str "E"
      ∧ normalizeText (str "Ñ") = str "n" ∧ normalizeText (str "Ñ") ≠ str "N"
      ∧ normalizeText (str "Ç") = str "c" ∧ normalizeText (str "Ç") ≠ str "C"
      ∧ normalizeText (str "Émile") = str "emile" := by
  decide

theorem normalizeTextWith_str (isMn : Nat → Bool) (s : String) :
    normalizeTextWith isMn (str s) = s.data.flatMap (fun c =>
      if 0 ≤ normalizeRuneWith isMn c.toNat then
        utf8.EncodeRune (normalizeRuneWith isMn c.toNat).toNat
      else []) := by
  have h : str s = (s.data.map Char.toNat).flatMap utf8.EncodeRune := by
    simp [str, List.flatMap_map]
  rw [h, normalizeTextWith, strings.Map_flatMap_encode, List.flatMap_map]
  intro r hr
  obtain ⟨c, _, hc⟩ := List.mem_map.mp hr
  rw [← hc]
  exact c.valid

theorem normalizeTextWith_append (isMn : Nat → Bool) (a b : String) :
    normalizeTextWith isMn (str (a ++ b))
      = normalizeTextWith isMn (str a) ++ normalizeTextWith isMn (str b) := by
  simp [normalizeTextWith_str, String.data_append, List.flatMap_append]

theorem normalizeRuneWith_eq_self (isMn : Nat → Bool) (c : Char)
    (h1 : ∀ fam ∈ spec.accentFamilies, c ∉ fam.1) (h2 : isMn c.toNat = false) :
    normalizeRuneWith isMn c.toNat = (c.toNat : Int) := by
  have h (l : List Char) (b : Char) (hm : (l, b) ∈ spec.accentFamilies) :
      ¬ (oneOf c.toNat l = true) := by
    rw [oneOf_eq_true_iff]
    exact h1 (l, b) hm
  unfold normalizeRuneWith
  rw [if_neg (h _ 'a' (by decide)), if_neg (h _ 'e' (by decide)), if_neg (h _ 'i' (by decide)),
    if_neg (h _ 'o' (by decide)), if_neg (h _ 'u' (by decide)), if_neg (h _ 'y' (by decide)),
    if_neg (h _ 'n' (by decide)), if_neg (h _ 'c' (by decide)), h2]
  simp

theorem normalizeTextWith_unchanged (isMn : Nat → Bool) (s : String)
    (h : ∀ c ∈ s.data, (∀ fam ∈ spec.accentFamilies, c ∉ fam.1) ∧ isMn c.toNat = false) :
    normalizeTextWith isMn (str s) = str s := by
  rw [normalizeTextWith_str]
  unfold str
  apply List.flatMap_congr
  intro c hc
  rw [normalizeRuneWith_eq_self isMn c (h c hc).1 (h c hc).2]
  simp

theorem normalizeText_eq_with (text : GoString) :
    normalizeText text = normalizeTextWith unicode.isMn text := rfl

theorem isMn_eq_false_of_lt (r : Nat) (h : r < 0x300) : unicode.isMn r = false := by
  have hall : unicode.Mn.all (fun p => decide (0x300 ≤ p.1)) = true := by decide
  unfold unicode.isMn
  rw [List.any_eq_false]
  intro p hp
  have := List.all_eq_true.mp hall p hp
  simp only [decide_eq_true_eq] at this
  simp only [Bool.and_eq_true, decide_eq_true_eq, not_and, not_le]
  intro h1
  omega

/-- C7. Whatever the version of the table `unicode.Mn` (the parameter `isMn`; no version
has a mark below U+0300): `normalizeText("José")` is `"Jose"`, and a text (a sequence of
code points, in UTF-8) with no accented letter of the accent table and no code point
that the table holds is returned unchanged. The method of the program is this function
at the table of its Go release, and with the table embedded here `normalizeText("José")`
is `"Jose"`. -/
theorem normalizeText_unaccented (isMn : Nat → Bool) (s : String)
    (hMn : ∀ r, r < 0x300 → isMn r = false)
    (h : ∀ c ∈ s.data, (∀ fam ∈ spec.accentFamilies, c ∉ fam.1) ∧ isMn c.toNat = false) :
    normalizeTextWith isMn (str "José") = str "Jose"
      ∧ normalizeTextWith isMn (str s) = str s
      ∧ (∀ text, normalizeText text = normalizeTextWith unicode.isMn text)
      ∧ normalizeText (str "José") = str "Jose" := by
  refine ⟨?_, normalizeTextWith_unchanged isMn s h, normalizeText_eq_with, by decide⟩
  have hJos : normalizeTextWith isMn (str "Jos") = str "Jos" :=
    normalizeTextWith_unchanged isMn "Jos" (by
      intro c hc
      have hc2 : c = 'J' ∨ c = 'o' ∨ c = 's' := by simpa using hc
      rcases hc2 with rfl | rfl | rfl
      · exact ⟨by decide, hMn _ (by decide)⟩
      · exact ⟨by decide, hMn _ (by decide)⟩
      · exact ⟨by decide, hMn _ (by decide)⟩)
  have he : normalizeTextWith isMn (str "é") = str "e" := by
    rw [normalizeTextWith_str]
    have hd : "é".data = ['é'] := rfl
    have hr : normalizeRuneWith isMn 'é'.toNat = ('e'.toNat : Int) := by
      unfold normalizeRuneWith
      rw [if_neg (by decide), if_pos (by decide)]
    rw [hd]
    simp only [List.flatMap_cons, List.flatMap_nil, List.append_nil, hr]
    decide
  have hsplit : "José" = "Jos" ++ "é" := by decide
  rw [hsplit, normalizeTextWith_append, hJos, he]
  decide

/-- C7, witness: the table embedded here and the text `Ana Lowe 42`. -/
theorem normalizeText_unaccented_witness :
    (∀ r, r < 0x300 → unicode.isMn r = false)
      ∧ (∀ c ∈ "Ana Lowe 42".data, (∀ fam ∈ spec.accentFamilies, c ∉ fam.1)
        ∧ unicode.isMn c.toNat = false)
      ∧ normalizeTextWith unicode.isMn (str "José") = str "Jose"
      ∧ normalizeTextWith unicode.isMn (str "Ana Lowe 42") = str "Ana Lowe 42" :=
  ⟨isMn_eq_false_of_lt, by decide,
    (normalizeText_unaccented unicode.isMn "Ana Lowe 42" isMn_eq_false_of_lt (by decide)).1,
    (normalizeText_unaccented unicode.isMn "Ana Lowe 42" isMn_eq_false_of_lt (by decide)).2.1⟩

end printer

/-! ## The line wrapper -/

namespace printer

theorem charsPerLine_of_two_le (maxWidth fontWidth : Int) (h : 2 ≤ fontWidth) :
    charsPerLine maxWidth fontWidth = some (wrapInt (Int.tdiv maxWidth (Int.tdiv fontWidth 2))) := by
  have h2 : Int.tdiv fontWidth 2 ≠ 0 := by
    rw [Int.tdiv_eq_ediv (by omega) (by omega)]
    omega
  simp [charsPerLine, goDiv, h2]

/-- C2. Whenever `wrapText` returns (here for `fontWidth ≥ 2`, as in the claim), it
returns at most 2 lines. -/
theorem wrapText_length_le_two (text : GoString) (maxWidth fontHeight fontWidth : Int)
    (lines : List GoString) (hfw : 2 ≤ fontWidth)
    (h : wrapText text maxWidth fontHeight fontWidth = some lines) : lines.length ≤ 2 := by
  unfold wrapText at h
  cases hc : charsPerLine maxWidth fontWidth with
  | none => simp [hc] at h
  | some cpl =>
    simp only [hc, Option.some_bind] at h
    split at h
    · cases h
      simp
    · simp only [Option.map_eq_some'] at h
      obtain ⟨st, _, hst⟩ := h
      rw [← hst, List.length_take]
      omega

/-- C2, witness: the name of the demo record with the Name font. -/
theorem wrapText_length_le_two_witness :
    (2 : Int) ≤ 45
      ∧ wrapText (str "Jose Maria Gonzalez Perez") 362 60 45
          = some [str "Jose Maria", str "Gonzalez"]
      ∧ [str "Jose Maria", str "Gonzalez"].length ≤ 2 :=
  ⟨by decide, by decide,
    wrapText_length_le_two (str "Jose Maria Gonzalez Perez") 362 60 45 _ (by decide)
      (by decide)⟩

/-- C4. For `fontWidth ≥ 2` the character budget is computed without failure, and a text
whose rune count is at most the budget is returned as the single line, unchanged. -/
theorem wrapText_short (text : GoString) (maxWidth fontHeight fontWidth : Int)
    (hfw : 2 ≤ fontWidth) :
    ∃ cpl, charsPerLine maxWidth fontWidth = some cpl
      ∧ ((utf8.RuneCountInString text : Int) ≤ cpl
          → wrapText text maxWidth fontHeight fontWidth = some [text]) := by
  refine ⟨_, charsPerLine_of_two_le maxWidth fontWidth hfw, ?_⟩
  intro h
  unfold wrapText
  rw [charsPerLine_of_two_le maxWidth fontWidth hfw, Option.some_bind, if_pos h]

/-- C4, witness: a text with leading, doubled and trailing blanks, 12 runes for a budget
of 16, comes back as it is. -/
theorem wrapText_short_witness :
    (2 : Int) ≤ 45 ∧ charsPerLine 362 45 = some 16
      ∧ (utf8.RuneCountInString (str " Ana  Löwe  ") : Int) ≤ 16
      ∧ wrapText (str " Ana  Löwe  ") 362 60 45 = some [str " Ana  Löwe  "] := by
  obtain ⟨cpl, hc, h⟩ := wrapText_short (str " Ana  Löwe  ") 362 60 45 (by decide)
  have h16 : cpl = 16 := by
    have : charsPerLine 362 45 = some 16 := by decide
    rw [this] at hc
    exact (Option.some.inj hc).symm
  subst h16
  exact ⟨by decide, hc, by decide, h (by decide)⟩

/-- C1, the code at the claim's own example. The budget is 16 and `Gonzalez Perez` has 14
runes, yet the second line is the single word `Gonzalez`: the loop is left as soon as the
first line is complete, with the word that did not fit as the whole second line, and
`Perez` is dropped. -/
theorem wrapText_second_line_single_word :
    charsPerLine 362 45 = some 16
      ∧ strings.Fields (str "Jose Maria Gonzalez Perez")
          = [str "Jose", str "Maria", str "Gonzalez", str "Perez"]
      ∧ utf8.RuneCountInString (str "Gonzalez Perez") = 14
      ∧ wrapText (str "Jose Maria Gonzalez Perez") 362 60 45
          = some [str "Jose Maria", str "Gonzalez"]
      ∧ wrapText (str "Jose Maria Gonzalez Perez") 362 60 45
          ≠ some [str "Jose Maria", str "Gonzalez Perez"] := by
  decide

/-- C3, the code at a word with two-byte code points. The Greek surname has 19 runes
for a budget of 16 and passes the normaliser unchanged; the line returned is the first 13
bytes of the word (six letters and the first byte of the seventh) followed by `...`:
ten runes, not 16, and not well-formed UTF-8. -/
theorem wrapText_truncates_bytes :
    normalizeText (str "Παπαδημητρακόπουλος") = str "Παπαδημητρακόπουλος"
      ∧ strings.Fields (str "Παπαδημητρακόπουλος") = [str "Παπαδημητρακόπουλος"]
      ∧ utf8.RuneCountInString (str "Παπαδημητρακόπουλος") = 19
      ∧ wrapText (str "Παπαδημητρακόπουλος") 362 60 45
          = some [str "Παπαδη" ++ [0xCE] ++ str "..."]
      ∧ wrapText (str "Παπαδημητρακόπουλος") 362 60 45 ≠ some [str "Παπαδημητρακό..."]
      ∧ utf8.RuneCountInString (str "Παπαδη" ++ [0xCE] ++ str "...") = 10 := by
  decide

end printer

/-! ## The layout engine -/

namespace printer

theorem wrapInt_of_range (x : Int) (h0 : -2 ^ 63 ≤ x) (h1 : x < 2 ^ 63) : wrapInt x = x := by
  unfold wrapInt
  omega

/-- With a budget of at least 3 (and within the `int` range) the loop body of `wrapText`
never panics: the truncation index is within the word. -/
theorem wrapBody_isSome (cpl : Int) (h3 : 3 ≤ cpl) (hmax : cpl < 2 ^ 63)
    (lines : List GoString) (currentLine word : GoString) :
    ∃ st, wrapBody cpl lines currentLine word = some st := by
  unfold wrapBody
  simp only []
  by_cases hcur : currentLine = []
  · subst hcur
    simp only [ne_eq, not_true_eq_false, if_false, List.nil_append]
    by_cases hfit : (utf8.RuneCountInString word : Int) ≤ cpl
    · rw [if_pos hfit]; exact ⟨_, rfl⟩
    · rw [if_neg hfit]
      have hlen := utf8.RuneCountInString_le_length word
      have hs : sliceTo word (wrapInt (cpl - 3)) = some (word.take (cpl - 3).toNat) := by
        rw [wrapInt_of_range _ (by omega) (by omega)]
        unfold sliceTo
        rw [if_pos]
        constructor <;> omega
      rw [hs]
      simp only [Option.map_some']
      split <;> exact ⟨_, rfl⟩
  · simp only [ne_eq, hcur, not_false_eq_true, if_true]
    split
    · exact ⟨_, rfl⟩
    · split <;> exact ⟨_, rfl⟩

theorem wrapLoop_isSome (cpl : Int) (h3 : 3 ≤ cpl) (hmax : cpl < 2 ^ 63) :
    ∀ (words lines : List GoString) (currentLine : GoString),
      ∃ st, wrapLoop cpl words lines currentLine = some st := by
  intro words
  induction words with
  | nil => intro lines currentLine; exact ⟨_, rfl⟩
  | cons word rest ih =>
    intro lines currentLine
    obtain ⟨⟨l, c, b⟩, hst⟩ := wrapBody_isSome cpl h3 hmax lines currentLine word
    unfold wrapLoop
    rw [hst]
    cases b
    · exact ih _ _
    · exact ⟨_, rfl⟩

theorem wrapText_isSome (text : GoString) (maxWidth fontHeight fontWidth cpl : Int)
    (hc : charsPerLine maxWidth fontWidth = some cpl) (h3 : 3 ≤ cpl) (hmax : cpl < 2 ^ 63) :
    ∃ lines, wrapText text maxWidth fontHeight fontWidth = some lines := by
  unfold wrapText
  rw [hc, Option.some_bind]
  split
  · exact ⟨_, rfl⟩
  · obtain ⟨st, hst⟩ := wrapLoop_isSome cpl h3 hmax (strings.Fields text) [] []
    rw [hst]
    exact ⟨_, rfl⟩

end printer

namespace printer

/-- The loop that writes a block produces the placements of the specified block,
shifted to the index and offset it starts from. -/
theorem writeLines_eq (title font : String) (advance : Int) :
    ∀ (lines : List GoString) (i : Nat) (y : Int),
      writeLines title font 12 advance i y lines
        = (lines.enumFrom i).flatMap (fun p =>
            spec.remark title p.1
              ++ spec.placement 12 (y + advance * ((p.1 : Int) - (i : Int))) font p.2) := by
  intro lines
  induction lines with
  | nil => intro i y; rfl
  | cons line rest ih =>
    intro i y
    rw [writeLines, ih (i + 1) (y + advance), List.enumFrom_cons, List.flatMap_cons]
    have h0 : y + advance * ((i : Int) - (i : Int)) = y := by ring
    simp only [h0]
    congr 1
    apply List.flatMap_congr
    intro p _
    have h1 : y + advance + advance * ((p.1 : Int) - ((i + 1 : Nat) : Int))
        = y + advance * ((p.1 : Int) - (i : Int)) := by
      push_cast
      ring
    rw [h1]

theorem writeLines_eq_block (title font : String) (start advance : Int)
    (lines : List GoString) :
    writeLines title font 12 advance 0 start lines = spec.block title font start advance lines := by
  rw [writeLines_eq]
  unfold spec.block List.enum
  apply List.flatMap_congr
  intro p _
  simp

/-- The stream of `GenerateZPL` for every record and base URL: the three fields are
wrapped without failure and the stream is the specified one for the wrapped lines. -/
theorem GenerateZPL_eq_stream (data : LabelData) (baseURL : GoString) :
    ∃ nameLines companyLines roleLines,
      wrapText (normalizeText data.Name) 362 60 45 = some nameLines
        ∧ wrapText (normalizeText data.Company) 362 45 35 = some companyLines
        ∧ wrapText (normalizeText data.Role) 362 40 30 = some roleLines
        ∧ GenerateZPL (NewZPLLabelGenerator baseURL) data
            = some (spec.stream nameLines companyLines roleLines
                (baseURL ++ data.EmployeeID) data.EmployeeID) := by
  obtain ⟨nameLines, hn⟩ := wrapText_isSome (normalizeText data.Name) 362 60 45 16
    (by decide) (by decide) (by decide)
  obtain ⟨companyLines, hc⟩ := wrapText_isSome (normalizeText data.Company) 362 45 35 21
    (by decide) (by decide) (by decide)
  obtain ⟨roleLines, hr⟩ := wrapText_isSome (normalizeText data.Role) 362 40 30 24
    (by decide) (by decide) (by decide)
  refine ⟨nameLines, companyLines, roleLines, hn, hc, hr, ?_⟩
  have hw : (609 : Int) - 120 - 100 - 12 - 15 = 362 := by decide
  have hhead : str "^XA\n^MMT\n^PW" ++ fmtD 609 ++ str "\n^LL" ++ fmtD 406 ++ str "\n^LS0\n\n"
      = spec.header := by decide
  have hqr : str "REM *** QR Code ***\n^FO" ++ fmtD (609 - 120 - 100) ++ str "," ++ fmtD 60
      ++ str "^BQN,2,5^FDQA," = str "REM *** QR Code ***\n^FO389,60^BQN,2,5^FDQA," := by decide
  have hid : str "REM *** Employee ID ***\n^FO" ++ fmtD (609 - 120 - 100 + Int.tdiv 120 2)
      ++ str "," ++ fmtD (60 + 120 + 70) ++ str "^A0N,28,22^FD"
      = str "REM *** Employee ID ***\n^FO449,250^A0N,28,22^FD" := by decide
  have hcs : (25 : Int) + (nameLines.length : Int) * 65 + 15 = spec.companyStart nameLines := by
    unfold spec.companyStart; ring
  have hrs : spec.companyStart nameLines + (companyLines.length : Int) * 50 + 15
      = spec.roleStart nameLines companyLines := by
    unfold spec.roleStart; ring
  simp only [GenerateZPL, NewZPLLabelGenerator, hw, hn, hc, hr, Option.some_bind,
    writeLines_eq_block, hcs, hrs, hhead]
  unfold spec.stream spec.barcode spec.caption
  have hend : str "^FS\n\n^XZ" = str "^FS\n\n" ++ str "^XZ" := by decide
  rw [← hqr, ← hid]
  simp only [List.append_assoc, hend]

/-- C8. For every badge record and base URL, `GenerateZPL` returns exactly the header,
then one placement per wrapped Name line at `y = 25 + 65 i`, one per wrapped Company line
at `y = companyStart + 50 i`, one per wrapped Role line at `y = roleStart + 45 i` (each
after its REM comment line and terminated by `^FS`), then the barcode placement, the
caption placement and `^XZ`. -/
theorem GenerateZPL_stream (data : LabelData) (baseURL : GoString) :
    ∃ nameLines companyLines roleLines,
      wrapText (normalizeText data.Name) 362 60 45 = some nameLines
        ∧ wrapText (normalizeText data.Company) 362 45 35 = some companyLines
        ∧ wrapText (normalizeText data.Role) 362 40 30 = some roleLines
        ∧ GenerateZPL (NewZPLLabelGenerator baseURL) data
            = some (spec.header
                ++ spec.block "Name" "60,45" 25 65 nameLines
                ++ spec.block "Company" "45,35" (25 + 65 * (nameLines.length : Int) + 15) 50
                    companyLines
                ++ spec.block "Role" "40,30"
                    (25 + 65 * (nameLines.length : Int) + 15
                      + 50 * (companyLines.length : Int) + 15) 45 roleLines
                ++ spec.barcode (baseURL ++ data.EmployeeID)
                ++ spec.caption data.EmployeeID
                ++ str "^XZ") :=
  GenerateZPL_eq_stream data baseURL

/-- C9, as the code has it. An empty field is wrapped into one empty line, not into no
line: the stream has one placement with empty field data for it, and the block takes
one line advance. With an empty Name the Company block starts at `25 + 1 * 65 + 15 = 105`;
with an empty Company the Role block starts at `companyStart + 1 * 50 + 15`; an empty Role
has one placement with empty field data. -/
theorem GenerateZPL_empty_field (data : LabelData) (baseURL : GoString) :
    ∃ nameLines companyLines roleLines,
      wrapText (normalizeText data.Name) 362 60 45 = some nameLines
        ∧ wrapText (normalizeText data.Company) 362 45 35 = some companyLines
        ∧ wrapText (normalizeText data.Role) 362 40 30 = some roleLines
        ∧ GenerateZPL (NewZPLLabelGenerator baseURL) data
            = some (spec.stream nameLines companyLines roleLines
                (baseURL ++ data.EmployeeID) data.EmployeeID)
        ∧ (data.Name = [] → nameLines = [[]] ∧ spec.companyStart nameLines = 105)
        ∧ (data.Company = [] → companyLines = [[]]
            ∧ spec.roleStart nameLines companyLines = spec.companyStart nameLines + 50 + 15)
        ∧ (data.Role = [] → roleLines = [[]]) := by
  obtain ⟨nameLines, companyLines, roleLines, hn, hc, hr, hg⟩ :=
    GenerateZPL_eq_stream data baseURL
  have e1 : wrapText (normalizeText []) 362 60 45 = some [[]] := by decide
  have e2 : wrapText (normalizeText []) 362 45 35 = some [[]] := by decide
  have e3 : wrapText (normalizeText []) 362 40 30 = some [[]] := by decide
  refine ⟨nameLines, companyLines, roleLines, hn, hc, hr, hg, ?_, ?_, ?_⟩
  · intro h
    rw [h, e1] at hn
    cases hn
    exact ⟨rfl, by decide⟩
  · intro h
    rw [h, e2] at hc
    cases hc
    refine ⟨rfl, ?_⟩
    simp [spec.roleStart]
  · intro h
    rw [h, e3] at hr
    cases hr
    rfl

/-- C9, witness: the record with three empty fields has one empty placement per block,
at the offsets 25, 105 and 170. -/
theorem GenerateZPL_empty_field_witness :
    GenerateZPL (NewZPLLabelGenerator (str "https://badges.example.com/"))
        { Name := [], Company := [], Role := [], EmployeeID := str "E42" }
      = some (spec.header
          ++ (spec.remark "Name" 0 ++ spec.placement 12 25 "60,45" [])
          ++ (spec.remark "Company" 0 ++ spec.placement 12 105 "45,35" [])
          ++ (spec.remark "Role" 0 ++ spec.placement 12 170 "40,30" [])
          ++ spec.barcode (str "https://badges.example.com/E42")
          ++ spec.caption (str "E42")
          ++ str "^XZ") := by
  obtain ⟨nameLines, companyLines, roleLines, _, _, _, hg, h1, h2, h3⟩ :=
    GenerateZPL_empty_field
      { Name := [], Company := [], Role := [], EmployeeID := str "E42" }
      (str "https://badges.example.com/")
  obtain ⟨rfl, _⟩ := h1 rfl
  obtain ⟨rfl, _⟩ := h2 rfl
  obtain rfl := h3 rfl
  rw [hg]
  decide

/-- C9, counterexample. For a record with an empty Name the Name block is not empty: the
wrapper returns one (empty) line, the stream is the one with a Name placement and the
Company block at 105, and it differs from the stream with no Name line and the Company
block at 40. -/
theorem GenerateZPL_empty_name_one_line :
    wrapText (normalizeText (str "")) 362 60 45 = some [str ""]
      ∧ GenerateZPL (NewZPLLabelGenerator (str "https://badges.example.com/"))
          { Name := str "", Company := str "Acme", Role := str "Engineer",
            EmployeeID := str "E42" }
        = some (spec.stream [str ""] [str "Acme"] [str "Engineer"]
            (str "https://badges.example.com/E42") (str "E42"))
      ∧ spec.companyStart [str ""] = 105
      ∧ GenerateZPL (NewZPLLabelGenerator (str "https://badges.example.com/"))
          { Name := str "", Company := str "Acme", Role := str "Engineer",
            EmployeeID := str "E42" }
        ≠ some (spec.stream [] [str "Acme"] [str "Engineer"]
            (str "https://badges.example.com/E42") (str "E42"))
      ∧ spec.companyStart [] = 40 := by
  decide

/-- C10. The end-to-end example: the stream for `Ana Löwe`, `Acme`, `Engineer`, `E42` and
the base URL `https://badges.example.com/` has exactly one Name placement with field data
`Ana Lowe`, one Company placement with `Acme`, one Role placement with `Engineer`, the
barcode payload `https://badges.example.com/E42` and the caption `E42`. -/
theorem GenerateZPL_example :
    GenerateZPL (NewZPLLabelGenerator (str "https://badges.example.com/"))
        { Name := str "Ana Löwe", Company := str "Acme", Role := str "Engineer",
          EmployeeID := str "E42" }
      = some (spec.stream [str "Ana Lowe"] [str "Acme"] [str "Engineer"]
          (str "https://badges.example.com/E42") (str "E42"))
    ∧ spec.stream [str "Ana Lowe"] [str "Acme"] [str "Engineer"]
          (str "https://badges.example.com/E42") (str "E42")
      = str ("^XA\n^MMT\n^PW609\n^LL406\n^LS0\n\n"
          ++ "REM *** Name Line 1 ***\n^FO12,25^A0N,60,45^FDAna Lowe^FS\n\n"
          ++ "REM *** Company Line 1 ***\n^FO12,105^A0N,45,35^FDAcme^FS\n\n"
          ++ "REM *** Role Line 1 ***\n^FO12,170^A0N,40,30^FDEngineer^FS\n\n"
          ++ "REM *** QR Code ***\n^FO389,60^BQN,2,5^FDQA,https://badges.example.com/E42^FS\n\n"
          ++ "REM *** Employee ID ***\n^FO449,250^A0N,28,22^FDE42^FS\n\n^XZ") := by
  decide

end printer

/-! ## Budgets and failure of the wrapper -/

namespace printer

theorem charsPerLine_eq (maxWidth fontWidth : Int) (h0 : 0 ≤ maxWidth)
    (hmax : maxWidth < 2 ^ 63) (hfw : 2 ≤ fontWidth) :
    charsPerLine maxWidth fontWidth = some (maxWidth / (fontWidth / 2))
      ∧ 0 ≤ maxWidth / (fontWidth / 2) ∧ maxWidth / (fontWidth / 2) < 2 ^ 63 := by
  have hk : 0 < fontWidth / 2 := by omega
  have h1 : 0 ≤ maxWidth / (fontWidth / 2) := Int.ediv_nonneg h0 (le_of_lt hk)
  have h2 : maxWidth / (fontWidth / 2) ≤ maxWidth := Int.ediv_le_self _ h0
  refine ⟨?_, h1, by omega⟩
  rw [charsPerLine_of_two_le maxWidth fontWidth hfw,
    Int.tdiv_eq_ediv (a := fontWidth) (by omega) (by omega),
    Int.tdiv_eq_ediv h0 (le_of_lt hk), wrapInt_of_range _ (by omega) (by omega)]

/-- One pass of the loop body from a state with no finished line: either no line is
finished and the current line fits the budget or is a truncated word of `cpl` bytes, or
the loop is left with two lines, or with one such line and an empty current line. -/
theorem wrapBody_single (cpl : Int) (h0 : 0 ≤ cpl) (hmax : cpl < 2 ^ 63)
    (cur word cur1 : GoString) (lines1 : List GoString) (brk : Bool)
    (hG : (utf8.RuneCountInString cur : Int) ≤ cpl ∨ (cur.length : Int) = cpl)
    (h : wrapBody cpl [] cur word = some (lines1, cur1, brk)) :
    (brk = false ∧ lines1 = []
        ∧ ((utf8.RuneCountInString cur1 : Int) ≤ cpl ∨ (cur1.length : Int) = cpl))
      ∨ (brk = true ∧ (lines1.length = 2
        ∨ (∃ l, lines1 = [l] ∧ cur1 = []
            ∧ ((utf8.RuneCountInString l : Int) ≤ cpl ∨ (l.length : Int) = cpl)))) := by
  unfold wrapBody at h
  simp only [] at h
  by_cases hfit : (utf8.RuneCountInString
      ((if cur ≠ [] then cur ++ str " " else cur) ++ word) : Int) ≤ cpl
  · rw [if_pos hfit] at h
    simp only [Option.some.injEq, Prod.mk.injEq] at h
    obtain ⟨h1, h2, h3⟩ := h
    subst h1 h2 h3
    exact Or.inl ⟨rfl, rfl, Or.inl hfit⟩
  · rw [if_neg hfit] at h
    by_cases hcur : cur = []
    · subst hcur
      simp only [ne_eq, not_true_eq_false, if_false] at h
      cases hs : sliceTo word (wrapInt (cpl - 3)) with
      | none => simp [hs] at h
      | some head =>
        simp only [hs, Option.map_some', List.length_nil, ge_iff_le, nonpos_iff_eq_zero,
          one_ne_zero, if_false, Option.some.injEq, Prod.mk.injEq] at h
        obtain ⟨h1, h2, h3⟩ := h
        subst h1 h2 h3
        refine Or.inl ⟨rfl, rfl, Or.inr ?_⟩
        rw [wrapInt_of_range _ (by omega) (by omega)] at hs
        unfold sliceTo at hs
        split at hs
        · rename_i hb
          simp only [Option.some.injEq] at hs
          subst hs
          have h3 : (str "...").length = 3 := by decide
          simp only [List.length_append, List.length_take, h3]
          omega
        · simp at hs
    · simp only [ne_eq, hcur, not_false_eq_true, if_true, List.nil_append,
        List.length_singleton, ge_iff_le, le_refl, Option.some.injEq, Prod.mk.injEq] at h
      obtain ⟨h1, h2, h3⟩ := h
      subst h2 h3
      by_cases hw : word = []
      · subst hw
        simp only [not_true_eq_false, if_false] at h1
        exact Or.inr ⟨rfl, Or.inr ⟨cur, h1.symm, rfl, hG⟩⟩
      · simp only [hw, not_false_eq_true, if_true] at h1
        subst h1
        exact Or.inr ⟨rfl, Or.inl rfl⟩

theorem wrapLoop_single (cpl : Int) (h0 : 0 ≤ cpl) (hmax : cpl < 2 ^ 63) :
    ∀ (words : List GoString) (cur cur1 : GoString) (lines1 : List GoString),
      ((utf8.RuneCountInString cur : Int) ≤ cpl ∨ (cur.length : Int) = cpl) →
      wrapLoop cpl words [] cur = some (lines1, cur1) →
      (lines1 = []
          ∧ ((utf8.RuneCountInString cur1 : Int) ≤ cpl ∨ (cur1.length : Int) = cpl))
        ∨ lines1.length = 2
        ∨ (∃ l, lines1 = [l] ∧ cur1 = []
            ∧ ((utf8.RuneCountInString l : Int) ≤ cpl ∨ (l.length : Int) = cpl)) := by
  intro words
  induction words with
  | nil =>
    intro cur cur1 lines1 hG h
    simp only [wrapLoop, Option.some.injEq, Prod.mk.injEq] at h
    obtain ⟨h1, h2⟩ := h
    subst h1 h2
    exact Or.inl ⟨rfl, hG⟩
  | cons word rest ih =>
    intro cur cur1 lines1 hG h
    unfold wrapLoop at h
    cases hb : wrapBody cpl [] cur word with
    | none => simp [hb] at h
    | some st =>
      obtain ⟨l2, c2, brk⟩ := st
      rcases wrapBody_single cpl h0 hmax cur word c2 l2 brk hG hb with ⟨hbrk, hl, hg⟩ | ⟨hbrk, hr⟩
      · subst hbrk hl
        simp only [hb] at h
        exact ih c2 cur1 lines1 hg h
      · subst hbrk
        simp only [hb, Option.some.injEq, Prod.mk.injEq] at h
        obtain ⟨h1, h2⟩ := h
        subst h1 h2
        exact Or.inr hr

/-- The wrapper gives back the text itself as the only line exactly when the text fits
the budget. -/
theorem wrapText_single_iff (text : GoString) (maxWidth fontHeight fontWidth cpl : Int)
    (hc : charsPerLine maxWidth fontWidth = some cpl) (h0 : 0 ≤ cpl) (hmax : cpl < 2 ^ 63) :
    wrapText text maxWidth fontHeight fontWidth = some [text]
      ↔ (utf8.RuneCountInString text : Int) ≤ cpl := by
  constructor
  · intro h
    by_contra hlong
    have hlen := utf8.RuneCountInString_le_length text
    have hbad : ¬ ((utf8.RuneCountInString text : Int) ≤ cpl ∨ (text.length : Int) = cpl) := by
      omega
    unfold wrapText at h
    rw [hc, Option.some_bind, if_neg hlong] at h
    cases hl : wrapLoop cpl (strings.Fields text) [] [] with
    | none => simp [hl] at h
    | some st =>
      obtain ⟨lines1, cur1⟩ := st
      simp only [hl, Option.map_some', Option.some.injEq] at h
      have hnil : (utf8.RuneCountInString ([] : GoString) : Int) ≤ cpl
          ∨ ((([] : GoString).length : Nat) : Int) = cpl := Or.inl (by simpa using h0)
      rcases wrapLoop_single cpl h0 hmax _ [] cur1 lines1 hnil hl with
        ⟨h1, hg⟩ | h2 | ⟨l, h1, h2, hg⟩
      · subst h1
        by_cases hcur : cur1 = []
        · subst hcur
          simp at h
        · simp [hcur] at h
          subst h
          exact hbad hg
      · have := congrArg List.length h
        simp [h2] at this
      · subst h1 h2
        simp at h
        subst h
        exact hbad hg
  · intro h
    unfold wrapText
    rw [hc, Option.some_bind, if_pos h]

/-- C13, as the code has it. For `maxWidth ≥ 0` and `fontWidth ≥ 2` (both `int`) the
budget is `maxWidth / (fontWidth / 2)` with both divisions integer divisions, the half
font width rounded down (22 for 45, 17 for 35, 15 for 30), and `wrapText` returns the text
as the single unmodified line exactly when its rune count is at most this budget. For the
usable width 362 the budgets are 16, 21 and 24. -/
theorem wrapText_budget (text : GoString) (maxWidth fontHeight fontWidth : Int)
    (h0 : 0 ≤ maxWidth) (hmax : maxWidth < 2 ^ 63) (hfw : 2 ≤ fontWidth) :
    charsPerLine maxWidth fontWidth = some (maxWidth / (fontWidth / 2))
      ∧ (wrapText text maxWidth fontHeight fontWidth = some [text]
          ↔ (utf8.RuneCountInString text : Int) ≤ maxWidth / (fontWidth / 2))
      ∧ charsPerLine 362 45 = some 16 ∧ charsPerLine 362 35 = some 21
      ∧ charsPerLine 362 30 = some 24 := by
  obtain ⟨hc, h1, h2⟩ := charsPerLine_eq maxWidth fontWidth h0 hmax hfw
  exact ⟨hc, wrapText_single_iff text maxWidth fontHeight fontWidth _ hc h1 h2,
    by decide, by decide, by decide⟩

/-- C13, witness: a Company text of 21 runes with the Company font. -/
theorem wrapText_budget_witness :
    (0 : Int) ≤ 362 ∧ (362 : Int) < 2 ^ 63 ∧ (2 : Int) ≤ 35
      ∧ charsPerLine 362 35 = some (362 / (35 / 2))
      ∧ (wrapText (str "Innovacion Global Ltd") 362 45 35 = some [str "Innovacion Global Ltd"]
          ↔ (utf8.RuneCountInString (str "Innovacion Global Ltd") : Int) ≤ 362 / (35 / 2)) :=
  ⟨by decide, by decide, by decide,
    (wrapText_budget (str "Innovacion Global Ltd") 362 45 35 (by decide) (by decide)
      (by decide)).1,
    (wrapText_budget (str "Innovacion Global Ltd") 362 45 35 (by decide) (by decide)
      (by decide)).2.1⟩

/-- C13, counterexample. With the Company font (width 35) the budget of the code is
`362 / 17 = 21`, not `floor(2 * 362 / 35) = 20`: a text of 21 runes is returned as a
single unmodified line although it has more than 20 runes. -/
theorem wrapText_budget_half_width_rounded :
    charsPerLine 362 35 = some 21 ∧ (2 * 362 : Int) / 35 = 20
      ∧ utf8.RuneCountInString (str "Innovacion Global Ltd") = 21
      ∧ wrapText (str "Innovacion Global Ltd") 362 45 35
          = some [str "Innovacion Global Ltd"] := by
  decide

/-- C14, as the code has it. For every text and all positive `int` values `maxWidth`,
`fontHeight` and `fontWidth` with `fontWidth ≥ 2` and a budget
`maxWidth / (fontWidth / 2)` of at least 3, `wrapText` returns a list of lines: the
divisor `fontWidth / 2` is not zero and the truncation index `charsPerLine - 3` is within
the word. -/
theorem wrapText_succeeds (text : GoString) (maxWidth fontHeight fontWidth : Int)
    (hmw : 0 < maxWidth) (hmax : maxWidth < 2 ^ 63) (hfh : 0 < fontHeight)
    (hfw : 2 ≤ fontWidth) (h3 : 3 ≤ maxWidth / (fontWidth / 2)) :
    ∃ lines, wrapText text maxWidth fontHeight fontWidth = some lines := by
  obtain ⟨hc, _, h2⟩ := charsPerLine_eq maxWidth fontWidth (le_of_lt hmw) hmax hfw
  exact wrapText_isSome text maxWidth fontHeight fontWidth _ hc h3 h2

/-- C14, witness: an over-long single word with the Name font. -/
theorem wrapText_succeeds_witness :
    (3 : Int) ≤ 362 / (45 / 2)
      ∧ ∃ lines, wrapText (str "Donaudampfschifffahrtsgesellschaft") 362 60 45 = some lines :=
  ⟨by decide, wrapText_succeeds (str "Donaudampfschifffahrtsgesellschaft") 362 60 45
    (by decide) (by decide) (by decide) (by decide) (by decide)⟩

/-- C14, counterexample. With positive arguments `wrapText` can panic: for `fontWidth = 1`
the divisor `fontWidth / 2` is zero, and for a budget of 2 an over-long word is sliced at
the index `-1`. -/
theorem wrapText_panics :
    charsPerLine 2 1 = none ∧ wrapText (str "abcd") 2 60 1 = none
      ∧ charsPerLine 2 2 = some 2 ∧ sliceTo (str "abcd") (2 - 3) = none
      ∧ wrapText (str "abcd") 2 60 2 = none := by
  decide

end printer

/-! ## The stream: payload, success, vertical order -/

namespace printer

/-- C12. For every badge record and base URL the stream ends with the barcode placement
whose payload is the base URL immediately followed by the EmployeeID as supplied, then
the caption placement whose field data is the EmployeeID as supplied, then `^XZ`; neither
is normalised or escaped. So an EmployeeID with `É` and `/` appears unchanged in both. -/
theorem GenerateZPL_payload_raw (data : LabelData) (baseURL : GoString) :
    (∃ front, GenerateZPL (NewZPLLabelGenerator baseURL) data
        = some (front ++ spec.barcode (baseURL ++ data.EmployeeID)
            ++ spec.caption data.EmployeeID ++ str "^XZ"))
      ∧ ∃ front, GenerateZPL (NewZPLLabelGenerator (str "https://badges.example.com/"))
          { Name := str "Ana", Company := str "Acme", Role := str "Engineer",
            EmployeeID := str "É/42" }
        = some (front
            ++ str "REM *** QR Code ***\n^FO389,60^BQN,2,5^FDQA,https://badges.example.com/É/42^FS\n\n"
            ++ str "REM *** Employee ID ***\n^FO449,250^A0N,28,22^FDÉ/42^FS\n\n"
            ++ str "^XZ") := by
  constructor
  · obtain ⟨nameLines, companyLines, roleLines, _, _, _, hg⟩ :=
      GenerateZPL_eq_stream data baseURL
    exact ⟨_, hg⟩
  · exact ⟨str ("^XA\n^MMT\n^PW609\n^LL406\n^LS0\n\n"
        ++ "REM *** Name Line 1 ***\n^FO12,25^A0N,60,45^FDAna^FS\n\n"
        ++ "REM *** Company Line 1 ***\n^FO12,105^A0N,45,35^FDAcme^FS\n\n"
        ++ "REM *** Role Line 1 ***\n^FO12,170^A0N,40,30^FDEngineer^FS\n\n"), by decide⟩

/-- C15. For every badge record and base URL `GenerateZPL` returns a stream. The budgets
of the three fields are 16, 21 and 24, and for every budget of at least 3 the truncation
index `charsPerLine - 3` of a word with more runes than the budget is non-negative and
not past the end of the word, so the slice `word[:charsPerLine-3]` is defined. -/
theorem GenerateZPL_succeeds (data : LabelData) (baseURL : GoString) :
    (∃ zpl, GenerateZPL (NewZPLLabelGenerator baseURL) data = some zpl)
      ∧ charsPerLine 362 45 = some 16 ∧ charsPerLine 362 35 = some 21
      ∧ charsPerLine 362 30 = some 24
      ∧ ∀ (cpl : Int) (word : GoString), 3 ≤ cpl →
          ¬ ((utf8.RuneCountInString word : Int) ≤ cpl) →
          0 ≤ cpl - 3 ∧ cpl - 3 ≤ (word.length : Int)
            ∧ sliceTo word (cpl - 3) = some (word.take (cpl - 3).toNat) := by
  refine ⟨?_, by decide, by decide, by decide, ?_⟩
  · obtain ⟨nameLines, companyLines, roleLines, _, _, _, hg⟩ :=
      GenerateZPL_eq_stream data baseURL
    exact ⟨_, hg⟩
  · intro cpl word h3 hlong
    have hlen := utf8.RuneCountInString_le_length word
    have h : 0 ≤ cpl - 3 ∧ cpl - 3 ≤ (word.length : Int) := by constructor <;> omega
    exact ⟨h.1, h.2, by unfold sliceTo; rw [if_pos h]⟩

/-- C15, witness: the Greek surname of 19 runes and 38 bytes with the Name budget 16 is
cut at index 13. -/
theorem GenerateZPL_succeeds_witness :
    (3 : Int) ≤ 16
      ∧ ¬ ((utf8.RuneCountInString (str "Παπαδημητρακόπουλος") : Int) ≤ 16)
      ∧ sliceTo (str "Παπαδημητρακόπουλος") (16 - 3)
          = some ((str "Παπαδημητρακόπουλος").take 13) :=
  ⟨by decide, by decide,
    ((GenerateZPL_succeeds
        { Name := str "Παπαδημητρακόπουλος", Company := [], Role := [], EmployeeID := [] }
        []).2.2.2.2 16 (str "Παπαδημητρακόπουλος") (by decide) (by decide)).2.2⟩

/-- C20. For every badge record and base URL, in the stream `GenerateZPL` returns every
Name line lies above the start of the Company block: the offset `25 + 65 i` of Name line
`i` is strictly less than the offset `25 + 65 n + 15 + 50 j` of Company line `j`, `n`
being the number of Name lines. In particular, when there is at least one Name line, the
first Company line is strictly below the last Name line. -/
theorem GenerateZPL_company_below_name (data : LabelData) (baseURL : GoString) :
    ∃ nameLines companyLines roleLines,
      wrapText (normalizeText data.Name) 362 60 45 = some nameLines
        ∧ wrapText (normalizeText data.Company) 362 45 35 = some companyLines
        ∧ wrapText (normalizeText data.Role) 362 40 30 = some roleLines
        ∧ GenerateZPL (NewZPLLabelGenerator baseURL) data
            = some (spec.header
                ++ spec.block "Name" "60,45" 25 65 nameLines
                ++ spec.block "Company" "45,35" (spec.companyStart nameLines) 50 companyLines
                ++ spec.block "Role" "40,30" (spec.roleStart nameLines companyLines) 45
                    roleLines
                ++ spec.barcode (baseURL ++ data.EmployeeID)
                ++ spec.caption data.EmployeeID
                ++ str "^XZ")
        ∧ (∀ i j : Nat, i < nameLines.length →
            (25 : Int) + 65 * (i : Int) < spec.companyStart nameLines + 50 * (j : Int))
        ∧ (1 ≤ nameLines.length →
            (25 : Int) + 65 * ((nameLines.length : Int) - 1) < spec.companyStart nameLines) := by
  obtain ⟨nameLines, companyLines, roleLines, hn, hc, hr, hg⟩ :=
    GenerateZPL_eq_stream data baseURL
  refine ⟨nameLines, companyLines, roleLines, hn, hc, hr, hg, ?_, ?_⟩
  · intro i j hi
    unfold spec.companyStart
    omega
  · intro _
    unfold spec.companyStart
    omega

/-- C20, witness: the demo record; its Name has two lines, at 25 and 90, and the Company
block starts at 170. -/
theorem GenerateZPL_company_below_name_witness :
    wrapText (normalizeText (str "José María González Pérez")) 362 60 45
        = some [str "Jose Maria", str "Gonzalez"]
      ∧ (25 : Int) + 65 * ((2 : Nat) : Int) - 65
          < spec.companyStart [str "Jose Maria", str "Gonzalez"]
      ∧ spec.companyStart [str "Jose Maria", str "Gonzalez"] = 170 := by
  obtain ⟨nameLines, companyLines, roleLines, hn, _, _, _, _, h1⟩ :=
    GenerateZPL_company_below_name
      { Name := str "José María González Pérez", Company := str "Acme",
        Role := str "Engineer", EmployeeID := str "JG123" } (str "https://badges.example.com/")
  have e : wrapText (normalizeText (str "José María González Pérez")) 362 60 45
      = some [str "Jose Maria", str "Gonzalez"] := by decide
  have hl : nameLines = [str "Jose Maria", str "Gonzalez"] := by
    rw [e] at hn
    exact (Option.some.inj hn).symm
  subst hl
  refine ⟨e, ?_, by decide⟩
  have := h1 (by decide)
  simp only [List.length_cons, List.length_nil] at this
  push_cast at this ⊢
  omega

end printer

/-! ## The markers of the stream -/

namespace spec

theorem occurrences_append (d e : Nat) :
    ∀ (u v : GoString), caretsInside u = true →
      occurrences [0x5E, d, e] (u ++ v)
        = occurrences [0x5E, d, e] u + occurrences [0x5E, d, e] v := by
  intro u
  induction u with
  | nil => intro v _; simp [occurrences]
  | cons b u ih =>
    intro v h
    simp only [caretsInside, Bool.and_eq_true, Bool.or_eq_true, bne_iff_ne, ne_eq,
      decide_eq_true_eq] at h
    obtain ⟨hb, hu⟩ := h
    have hs : startsWith [0x5E, d, e] (b :: (u ++ v)) = startsWith [0x5E, d, e] (b :: u) := by
      by_cases hc : b = 0x5E
      · rcases hb with hb | hb
        · exact absurd hc hb
        · match u, hb with
          | x :: y :: u2, _ => simp [startsWith]
      · have : ((0x5E : Nat) == b) = false := by
          simp only [beq_eq_false_iff_ne, ne_eq]
          exact fun h => hc h.symm
        simp [startsWith, this]
    show occurrences [0x5E, d, e] (b :: (u ++ v))
      = occurrences [0x5E, d, e] (b :: u) + occurrences [0x5E, d, e] v
    rw [occurrences, occurrences, hs, ih v hu]
    omega

theorem occurrences_of_not_mem (d e : Nat) :
    ∀ u : GoString, 0x5E ∉ u → occurrences [0x5E, d, e] u = 0 := by
  intro u
  induction u with
  | nil => intro _; simp [occurrences]
  | cons b u ih =>
    intro h
    simp only [List.mem_cons, not_or] at h
    have : ((0x5E : Nat) == b) = false := by
      simp only [beq_eq_false_iff_ne, ne_eq]
      exact h.1
    simp [occurrences, startsWith, this, ih h.2]

theorem caretsInside_of_not_mem : ∀ u : GoString, 0x5E ∉ u → caretsInside u = true := by
  intro u
  induction u with
  | nil => intro _; rfl
  | cons b u ih =>
    intro h
    simp only [List.mem_cons, not_or] at h
    simp only [caretsInside, Bool.and_eq_true, Bool.or_eq_true, bne_iff_ne, ne_eq,
      decide_eq_true_eq]
    exact ⟨Or.inl (fun hb => h.1 hb.symm), ih h.2⟩

theorem caretsInside_append :
    ∀ u v : GoString, caretsInside u = true → caretsInside v = true →
      caretsInside (u ++ v) = true := by
  intro u
  induction u with
  | nil => intro v _ hv; exact hv
  | cons b u ih =>
    intro v hu hv
    simp only [caretsInside, Bool.and_eq_true, Bool.or_eq_true, bne_iff_ne, ne_eq,
      decide_eq_true_eq] at hu
    show ((b != 0x5E || decide (2 ≤ (u ++ v).length)) && caretsInside (u ++ v)) = true
    simp only [Bool.and_eq_true, Bool.or_eq_true, bne_iff_ne, ne_eq, decide_eq_true_eq,
      List.length_append]
    refine ⟨?_, ih v hu.2 hv⟩
    rcases hu.1 with h | h
    · exact Or.inl h
    · exact Or.inr (by omega)

theorem str_XA : str "^XA" = [0x5E, 0x58, 0x41] := by decide

theorem str_XZ : str "^XZ" = [0x5E, 0x58, 0x5A] := by decide

theorem neutral_iff (u : GoString) :
    neutral u = true ↔ caretsInside u = true ∧ occurrences (str "^XA") u = 0
      ∧ occurrences (str "^XZ") u = 0 := by
  simp [neutral, and_assoc]

theorem neutral_of_not_mem (u : GoString) (h : 0x5E ∉ u) : neutral u = true := by
  rw [neutral_iff, str_XA, str_XZ]
  exact ⟨caretsInside_of_not_mem u h, occurrences_of_not_mem _ _ u h,
    occurrences_of_not_mem _ _ u h⟩

theorem neutral_append (u v : GoString) (hu : neutral u = true) (hv : neutral v = true) :
    neutral (u ++ v) = true := by
  rw [neutral_iff] at hu hv ⊢
  rw [str_XA, str_XZ] at hu hv ⊢
  refine ⟨caretsInside_append u v hu.1 hv.1, ?_, ?_⟩
  · rw [occurrences_append _ _ u v hu.1, hu.2.1, hv.2.1]
  · rw [occurrences_append _ _ u v hu.1, hu.2.2, hv.2.2]

theorem neutral_flatMap {α : Type} (f : α → GoString) :
    ∀ l : List α, (∀ x ∈ l, neutral (f x) = true) → neutral (l.flatMap f) = true := by
  intro l
  induction l with
  | nil => intro _; rw [List.flatMap_nil]; decide
  | cons x l ih =>
    intro h
    rw [List.flatMap_cons]
    exact neutral_append _ _ (h x (List.mem_cons_self _ _))
      (ih (fun y hy => h y (List.mem_cons_of_mem _ hy)))

end spec

namespace utf8

theorem mem_encode_ascii (r b : Nat) (hb : b ∈ EncodeRune r) (h : b < 0x80) : r = b := by
  unfold EncodeRune at hb
  split_ifs at hb <;> simp only [List.mem_cons, List.mem_singleton, List.mem_nil_iff,
    or_false] at hb <;> omega

theorem decode_ascii (b : Nat) (t : GoString) (h : (DecodeRuneInString (b :: t)).1 < 0x80) :
    (DecodeRuneInString (b :: t)).1 = b := by
  by_cases hb : b < 0x80
  · simp [DecodeRuneInString, hb]
  · exfalso
    revert h
    simp only [DecodeRuneInString, RuneError]
    rw [if_neg hb]
    repeat' split
    all_goals simp only []
    all_goals omega

theorem rangeAux_ascii (n : Nat) : ∀ (s : GoString) (p : Nat × GoString),
    p ∈ rangeAux n s → p.1 < 0x80 → p.1 ∈ s := by
  induction n with
  | zero => intro s p hp; simp [rangeAux] at hp
  | succ n ih =>
    intro s p hp hlt
    cases s with
    | nil => simp [rangeAux] at hp
    | cons b t =>
      simp only [rangeAux, List.cons_ne_nil, if_false, List.mem_cons] at hp
      rcases hp with hp | hp
      · rw [hp] at hlt ⊢
        simp only at hlt ⊢
        rw [decode_ascii b t hlt]
        exact List.mem_cons_self _ _
      · exact List.mem_of_mem_drop (ih _ p hp hlt)

theorem rangeAux_bytes (n : Nat) : ∀ (s : GoString) (p : Nat × GoString),
    p ∈ rangeAux n s → ∀ b ∈ p.2, b ∈ s := by
  induction n with
  | zero => intro s p hp; simp [rangeAux] at hp
  | succ n ih =>
    intro s p hp b hb
    cases s with
    | nil => simp [rangeAux] at hp
    | cons c t =>
      simp only [rangeAux, List.cons_ne_nil, if_false, List.mem_cons] at hp
      rcases hp with hp | hp
      · rw [hp] at hb
        exact List.mem_of_mem_take hb
      · exact List.mem_of_mem_drop (ih _ p hp b hb)

end utf8

namespace strings

theorem fieldsAux_bytes (P : Nat → Prop) :
    ∀ (l : List (Nat × GoString)) (cur : GoString),
      (∀ p ∈ l, ∀ b ∈ p.2, P b) → (∀ b ∈ cur, P b) →
      ∀ w ∈ fieldsAux l cur, ∀ b ∈ w, P b := by
  intro l
  induction l with
  | nil =>
    intro cur _ hcur w hw
    unfold fieldsAux at hw
    split_ifs at hw
    · simp at hw
    · simp only [List.mem_singleton] at hw
      rw [hw]
      exact hcur
  | cons p l ih =>
    intro cur hl hcur w hw
    obtain ⟨r, bs⟩ := p
    have hl2 : ∀ q ∈ l, ∀ b ∈ q.2, P b := fun q hq => hl q (List.mem_cons_of_mem _ hq)
    have hnil : ∀ b ∈ ([] : GoString), P b := fun b hb => absurd hb (List.not_mem_nil b)
    unfold fieldsAux at hw
    split_ifs at hw
    · exact ih [] hl2 hnil w hw
    · simp only [List.mem_cons] at hw
      rcases hw with hw | hw
      · rw [hw]; exact hcur
      · exact ih [] hl2 hnil w hw
    · refine ih (cur ++ bs) hl2 ?_ w hw
      intro b hb
      rcases List.mem_append.mp hb with hb | hb
      · exact hcur b hb
      · exact hl (r, bs) (List.mem_cons_self _ _) b hb

theorem Fields_bytes (P : Nat → Prop) (s : GoString) (hs : ∀ b ∈ s, P b) :
    ∀ w ∈ Fields s, ∀ b ∈ w, P b :=
  fieldsAux_bytes P _ [] (fun p hp b hb => hs b (utf8.rangeAux_bytes _ s p hp b hb))
    (fun b hb => absurd hb (List.not_mem_nil b))

end strings

namespace printer

theorem normalizeText_no_caret (s : GoString) (h : 0x5E ∉ s) : 0x5E ∉ normalizeText s := by
  intro hmem
  unfold normalizeText at hmem
  rw [strings.Map_eq, List.mem_flatMap] at hmem
  obtain ⟨p, hp, hb⟩ := hmem
  split_ifs at hb with h0
  · have h1 := utf8.mem_encode_ascii _ _ hb (by decide)
    have h2 : normalizeRune p.1 = 0x5E := by omega
    have h3 : p.1 = 0x5E := by
      rcases normalizeRune_cases p.1 with hc | hc | hc
      · omega
      · omega
      · rw [h2] at hc
        simp at hc
    apply h
    have := utf8.rangeAux_ascii _ s p hp (by omega)
    rw [h3] at this
    exact this
  · simp at hb

theorem wrapBody_bytes (P : Nat → Prop) (hsp : P 0x20) (hdot : P 0x2E) (cpl : Int)
    (lines : List GoString) (cur word : GoString) (st : List GoString × GoString × Bool)
    (hl : ∀ l ∈ lines, ∀ b ∈ l, P b) (hc : ∀ b ∈ cur, P b) (hw : ∀ b ∈ word, P b)
    (h : wrapBody cpl lines cur word = some st) :
    (∀ l ∈ st.1, ∀ b ∈ l, P b) ∧ ∀ b ∈ st.2.1, P b := by
  have hspace : ∀ b ∈ str " ", P b := by
    have : str " " = [0x20] := by decide
    rw [this]
    intro b hb
    rw [List.mem_singleton.mp hb]
    exact hsp
  have hdots : ∀ b ∈ str "...", P b := by
    have : str "..." = [0x2E, 0x2E, 0x2E] := by decide
    rw [this]
    intro b hb
    simp only [List.mem_cons, List.mem_singleton, List.mem_nil_iff, or_false, or_self] at hb
    rw [hb]
    exact hdot
  have happ : ∀ u v : GoString, (∀ b ∈ u, P b) → (∀ b ∈ v, P b) → ∀ b ∈ u ++ v, P b := by
    intro u v hu hv b hb
    rcases List.mem_append.mp hb with hb | hb
    · exact hu b hb
    · exact hv b hb
  have hsnoc : ∀ (ls : List GoString) (u : GoString), (∀ l ∈ ls, ∀ b ∈ l, P b) →
      (∀ b ∈ u, P b) → ∀ l ∈ ls ++ [u], ∀ b ∈ l, P b := by
    intro ls u hls hu l hl
    rcases List.mem_append.mp hl with hl | hl
    · exact hls l hl
    · rw [List.mem_singleton.mp hl]
      exact hu
  unfold wrapBody at h
  simp only [] at h
  by_cases hcur : cur = []
  · subst hcur
    simp only [ne_eq, not_true_eq_false, if_false, List.nil_append] at h
    by_cases hfit : (utf8.RuneCountInString word : Int) ≤ cpl
    · rw [if_pos hfit] at h
      cases h
      exact ⟨hl, hw⟩
    · rw [if_neg hfit] at h
      cases hs : sliceTo word (wrapInt (cpl - 3)) with
      | none => simp [hs] at h
      | some head =>
        have hhead : ∀ b ∈ head, P b := by
          unfold sliceTo at hs
          split_ifs at hs
          cases hs
          exact fun b hb => hw b (List.mem_of_mem_take hb)
        simp only [hs, Option.map_some'] at h
        split_ifs at h
        all_goals cases h
        all_goals first
          | exact ⟨hl, happ _ _ hhead hdots⟩
          | exact ⟨hsnoc _ _ hl (happ _ _ hhead hdots), happ _ _ hhead hdots⟩
  · simp only [ne_eq, hcur, not_false_eq_true, if_true] at h
    split_ifs at h
    all_goals cases h
    all_goals first
      | exact ⟨hl, happ _ _ (happ _ _ hc hspace) hw⟩
      | exact ⟨hsnoc _ _ (hsnoc _ _ hl hc) hw, hw⟩
      | exact ⟨hsnoc _ _ hl hc, hw⟩

theorem wrapLoop_bytes (P : Nat → Prop) (hsp : P 0x20) (hdot : P 0x2E) (cpl : Int) :
    ∀ (words lines : List GoString) (cur : GoString) (st : List GoString × GoString),
      (∀ w ∈ words, ∀ b ∈ w, P b) → (∀ l ∈ lines, ∀ b ∈ l, P b) → (∀ b ∈ cur, P b) →
      wrapLoop cpl words lines cur = some st →
      (∀ l ∈ st.1, ∀ b ∈ l, P b) ∧ ∀ b ∈ st.2, P b := by
  intro words
  induction words with
  | nil =>
    intro lines cur st _ hl hc h
    simp only [wrapLoop, Option.some.injEq] at h
    subst h
    exact ⟨hl, hc⟩
  | cons word rest ih =>
    intro lines cur st hws hl hc h
    unfold wrapLoop at h
    cases hb : wrapBody cpl lines cur word with
    | none => simp [hb] at h
    | some st1 =>
      have h1 := wrapBody_bytes P hsp hdot cpl lines cur word st1 hl hc
        (hws word (List.mem_cons_self _ _)) hb
      obtain ⟨l1, c1, brk⟩ := st1
      cases brk with
      | true =>
        simp only [hb, Option.some.injEq] at h
        subst h
        exact h1
      | false =>
        simp only [hb] at h
        exact ih l1 c1 st (fun w hw => hws w (List.mem_cons_of_mem _ hw)) h1.1 h1.2 h

theorem wrapText_bytes (P : Nat → Prop) (hsp : P 0x20) (hdot : P 0x2E) (text : GoString)
    (maxWidth fontHeight fontWidth : Int) (lines : List GoString)
    (ht : ∀ b ∈ text, P b) (h : wrapText text maxWidth fontHeight fontWidth = some lines) :
    ∀ l ∈ lines, ∀ b ∈ l, P b := by
  unfold wrapText at h
  cases hc : charsPerLine maxWidth fontWidth with
  | none => simp [hc] at h
  | some cpl =>
    simp only [hc, Option.some_bind] at h
    split_ifs at h
    · cases h
      intro l hl
      rw [List.mem_singleton.mp hl]
      exact ht
    · cases hl : wrapLoop cpl (strings.Fields text) [] [] with
      | none => simp [hl] at h
      | some st =>
        have h1 := wrapLoop_bytes P hsp hdot cpl _ [] [] st (strings.Fields_bytes P text ht)
          (fun l hl => absurd hl (List.not_mem_nil l))
          (fun b hb => absurd hb (List.not_mem_nil b)) hl
        simp only [hl, Option.map_some', Option.some.injEq] at h
        subst h
        intro l hmem
        have hmem := List.mem_of_mem_take hmem
        split_ifs at hmem
        · rcases List.mem_append.mp hmem with hm | hm
          · exact h1.1 l hm
          · rw [List.mem_singleton.mp hm]
            exact h1.2
        · exact h1.1 l hmem

end printer

namespace printer

theorem toDigitsCore_lt (fuel : Nat) : ∀ (m : Nat) (ds : List Char),
    (∀ c ∈ ds, c.toNat < 0x5E) → ∀ c ∈ Nat.toDigitsCore 10 fuel m ds, c.toNat < 0x5E := by
  induction fuel with
  | zero => intro m ds h c hc; exact h c (by simpa [Nat.toDigitsCore] using hc)
  | succ fuel ih =>
    intro m ds h c hc
    have hd : ∀ d, d < 10 → (Nat.digitChar d).toNat < 0x5E := by decide
    have hds : ∀ x ∈ Nat.digitChar (m % 10) :: ds, x.toNat < 0x5E := by
      intro x hx
      rcases List.mem_cons.mp hx with hx | hx
      · rw [hx]; exact hd _ (Nat.mod_lt _ (by decide))
      · exact h x hx
    unfold Nat.toDigitsCore at hc
    simp only [] at hc
    split_ifs at hc
    · exact hds c hc
    · exact ih _ _ hds c hc

theorem toString_int_lt (n : Int) : ∀ c ∈ (toString n).data, c.toNat < 0x5E := by
  have hnat : ∀ m : Nat, ∀ c ∈ (Nat.repr m).data, c.toNat < 0x5E := by
    intro m c hc
    exact toDigitsCore_lt _ m [] (fun x hx => absurd hx (List.not_mem_nil x)) c hc
  cases n with
  | ofNat m => exact hnat m
  | negSucc m =>
    intro c hc
    have : (toString (Int.negSucc m)).data = '-' :: (Nat.repr (m + 1)).data := rfl
    rw [this] at hc
    rcases List.mem_cons.mp hc with hc | hc
    · rw [hc]; decide
    · exact hnat _ c hc

theorem fmtD_no_caret (n : Int) : 0x5E ∉ fmtD n := by
  intro h
  unfold fmtD str at h
  rw [List.mem_flatMap] at h
  obtain ⟨c, hc, hb⟩ := h
  have h1 := toString_int_lt n c hc
  have h2 := utf8.mem_encode_ascii _ _ hb (by decide)
  omega

end printer

namespace printer

theorem neutral_fmtD (n : Int) : spec.neutral (fmtD n) = true :=
  spec.neutral_of_not_mem _ (fmtD_no_caret n)

theorem neutral_block (title font : String) (start advance : Int) (lines : List GoString)
    (ht : spec.neutral (str title) = true) (hf : spec.neutral (str font) = true)
    (hl : ∀ l ∈ lines, 0x5E ∉ l) :
    spec.neutral (spec.block title font start advance lines) = true := by
  unfold spec.block
  apply spec.neutral_flatMap
  intro p hp
  have hline : spec.neutral p.2 = true :=
    spec.neutral_of_not_mem _ (hl p.2 (List.snd_mem_of_mem_enum hp))
  have hrem : spec.neutral (spec.remark title p.1) = true := by
    unfold spec.remark
    exact spec.neutral_append _ _ (spec.neutral_append _ _ (spec.neutral_append _ _
      (spec.neutral_append _ _ (by decide) ht) (by decide)) (neutral_fmtD _)) (by decide)
  have hpl : spec.neutral (spec.placement 12 (start + advance * (p.1 : Int)) font p.2)
      = true := by
    unfold spec.placement
    exact spec.neutral_append _ _ (spec.neutral_append _ _ (spec.neutral_append _ _
      (spec.neutral_append _ _ (spec.neutral_append _ _ (spec.neutral_append _ _
      (spec.neutral_append _ _ (spec.neutral_append _ _ (by decide) (neutral_fmtD _))
      (by decide)) (neutral_fmtD _)) (by decide)) hf) (by decide)) hline) (by decide)
  exact spec.neutral_append _ _ hrem hpl

theorem neutral_barcode (payload : GoString) (h : 0x5E ∉ payload) :
    spec.neutral (spec.barcode payload) = true := by
  unfold spec.barcode
  exact spec.neutral_append _ _ (spec.neutral_append _ _ (by decide)
    (spec.neutral_of_not_mem _ h)) (by decide)

theorem neutral_caption (caption : GoString) (h : 0x5E ∉ caption) :
    spec.neutral (spec.caption caption) = true := by
  unfold spec.caption
  exact spec.neutral_append _ _ (spec.neutral_append _ _ (by decide)
    (spec.neutral_of_not_mem _ h)) (by decide)

/-- In a stream whose wrapped lines, payload and caption have no `^`, each of the markers
`^XA` and `^XZ` occurs once. -/
theorem stream_markers_once (nameLines companyLines roleLines : List GoString)
    (payload employeeID : GoString)
    (hn : ∀ l ∈ nameLines, 0x5E ∉ l) (hc : ∀ l ∈ companyLines, 0x5E ∉ l)
    (hr : ∀ l ∈ roleLines, 0x5E ∉ l) (hp : 0x5E ∉ payload) (hi : 0x5E ∉ employeeID) :
    spec.occurrences (str "^XA")
        (spec.stream nameLines companyLines roleLines payload employeeID) = 1
      ∧ spec.occurrences (str "^XZ")
        (spec.stream nameLines companyLines roleLines payload employeeID) = 1 := by
  have hmid : spec.neutral (spec.block "Name" "60,45" 25 65 nameLines
      ++ (spec.block "Company" "45,35" (spec.companyStart nameLines) 50 companyLines
      ++ (spec.block "Role" "40,30" (spec.roleStart nameLines companyLines) 45 roleLines
      ++ (spec.barcode payload ++ spec.caption employeeID)))) = true :=
    spec.neutral_append _ _ (neutral_block _ _ _ _ _ (by decide) (by decide) hn)
      (spec.neutral_append _ _ (neutral_block _ _ _ _ _ (by decide) (by decide) hc)
        (spec.neutral_append _ _ (neutral_block _ _ _ _ _ (by decide) (by decide) hr)
          (spec.neutral_append _ _ (neutral_barcode _ hp) (neutral_caption _ hi))))
  rw [spec.neutral_iff] at hmid
  obtain ⟨hm1, hm2, hm3⟩ := hmid
  have hh : spec.caretsInside spec.header = true := by decide
  have ha1 : spec.occurrences (str "^XA") spec.header = 1 := by decide
  have hz1 : spec.occurrences (str "^XZ") spec.header = 0 := by decide
  have hre : spec.stream nameLines companyLines roleLines payload employeeID
      = spec.header ++ ((spec.block "Name" "60,45" 25 65 nameLines
      ++ (spec.block "Company" "45,35" (spec.companyStart nameLines) 50 companyLines
      ++ (spec.block "Role" "40,30" (spec.roleStart nameLines companyLines) 45 roleLines
      ++ (spec.barcode payload ++ spec.caption employeeID)))) ++ str "^XZ") := by
    unfold spec.stream
    simp only [List.append_assoc]
  rw [hre]
  rw [spec.str_XA] at hm2 ha1 ⊢
  rw [spec.str_XZ] at hm3 hz1 ⊢
  rw [spec.occurrences_append _ _ _ _ hh, spec.occurrences_append _ _ _ _ hh,
    spec.occurrences_append _ _ _ _ hm1, spec.occurrences_append _ _ _ _ hm1,
    ha1, hz1, hm2, hm3]
  decide

/-- C11, as the code has it. For every badge record and base URL the stream begins with
the header, whose first bytes are `^XA`, and ends with `^XZ`; the layout writes each of
the two markers once, and field contents are written as they are. So when neither the
base URL nor any of the four fields contains the character `^`, each of `^XA` and `^XZ`
occurs exactly once in the whole stream. -/
theorem GenerateZPL_markers (data : LabelData) (baseURL : GoString) :
    ∃ zpl, GenerateZPL (NewZPLLabelGenerator baseURL) data = some zpl
      ∧ (∃ rest, zpl = spec.header ++ rest) ∧ (∃ rest, zpl = str "^XA" ++ rest)
      ∧ (∃ front, zpl = front ++ str "^XZ")
      ∧ (0x5E ∉ baseURL → 0x5E ∉ data.Name → 0x5E ∉ data.Company → 0x5E ∉ data.Role →
          0x5E ∉ data.EmployeeID →
          spec.occurrences (str "^XA") zpl = 1 ∧ spec.occurrences (str "^XZ") zpl = 1) := by
  obtain ⟨nameLines, companyLines, roleLines, hn, hc, hr, hg⟩ :=
    GenerateZPL_eq_stream data baseURL
  refine ⟨_, hg, ?_, ?_, ?_, ?_⟩
  · unfold spec.stream
    simp only [List.append_assoc]
    exact ⟨_, rfl⟩
  · have hh : spec.header = str "^XA" ++ str "\n^MMT\n^PW609\n^LL406\n^LS0\n\n" := by decide
    unfold spec.stream
    rw [hh]
    simp only [List.append_assoc]
    exact ⟨_, rfl⟩
  · unfold spec.stream
    exact ⟨_, rfl⟩
  · intro hb hname hcompany hrole hid
    have hP : ∀ (text : GoString) (mw fh fw : Int) (lines : List GoString), 0x5E ∉ text →
        wrapText (normalizeText text) mw fh fw = some lines → ∀ l ∈ lines, 0x5E ∉ l := by
      intro text mw fh fw lines ht hw l hl hmem
      exact wrapText_bytes (fun b => b ≠ 0x5E) (by decide) (by decide) (normalizeText text)
        mw fh fw lines (fun b hb hbe => normalizeText_no_caret text ht (hbe ▸ hb)) hw l hl
        0x5E hmem rfl
    refine stream_markers_once _ _ _ _ _ (hP _ _ _ _ _ hname hn) (hP _ _ _ _ _ hcompany hc)
      (hP _ _ _ _ _ hrole hr) ?_ hid
    intro hmem
    rcases List.mem_append.mp hmem with h | h
    · exact hb h
    · exact hid h

/-- C11, witness: the end-to-end example has no `^` in its fields and each marker
once. -/
theorem GenerateZPL_markers_witness :
    (GenerateZPL (NewZPLLabelGenerator (str "https://badges.example.com/"))
        { Name := str "Ana Löwe", Company := str "Acme", Role := str "Engineer",
          EmployeeID := str "E42" }).map (spec.occurrences (str "^XA")) = some 1
      ∧ (GenerateZPL (NewZPLLabelGenerator (str "https://badges.example.com/"))
        { Name := str "Ana Löwe", Company := str "Acme", Role := str "Engineer",
          EmployeeID := str "E42" }).map (spec.occurrences (str "^XZ")) = some 1 := by
  obtain ⟨zpl, hz, _, _, _, h⟩ :=
    GenerateZPL_markers
      { Name := str "Ana Löwe", Company := str "Acme", Role := str "Engineer",
        EmployeeID := str "E42" } (str "https://badges.example.com/")
  have h1 := h (by decide) (by decide) (by decide) (by decide) (by decide)
  rw [hz]
  exact ⟨congrArg some h1.1, congrArg some h1.2⟩

/-- C11, counterexample. Field contents are written unescaped: with the Name `^XA` and
the EmployeeID `^XZ` the stream holds `^XA` twice (header, Name line) and `^XZ` three
times (barcode payload, caption, end of the stream). -/
theorem GenerateZPL_markers_repeated :
    (GenerateZPL (NewZPLLabelGenerator (str "https://badges.example.com/"))
        { Name := str "^XA", Company := str "Acme", Role := str "Engineer",
          EmployeeID := str "^XZ" }).map (spec.occurrences (str "^XA")) = some 2
      ∧ (GenerateZPL (NewZPLLabelGenerator (str "https://badges.example.com/"))
        { Name := str "^XA", Company := str "Acme", Role := str "Engineer",
          EmployeeID := str "^XZ" }).map (spec.occurrences (str "^XZ")) = some 3 := by
  decide

end printer

/-! ## The connection manager -/

namespace printer

/-- C16. `PrinterConnection.PrintLabel` on a connected connection, against any network:
at most two writes and at most one dial are made; the call succeeds exactly when the
first write succeeds, or the first write fails and the dial and the second write both
succeed. When the first write fails and the dial and the retried write succeed, the
operations are: the failed write, one dial, the closing of the old socket, the write of
the same bytes on the new socket, and the connection then holds the new socket. When the
first and the retried write both fail, an error is returned after exactly two writes. -/
theorem PrintLabel_single_retry (p : PrinterConnection) (c : Conn) (zplCommand : GoString)
    (n : Net) (hc : p.conn = some c) :
    ∃ ops, (p.PrintLabel zplCommand n).2.2.trace = n.trace ++ ops
      ∧ writes ops ≤ 2 ∧ dials ops ≤ 1
      ∧ ((p.PrintLabel zplCommand n).1 = none
          ↔ (n.outcome n.ops = true
            ∨ (n.outcome n.ops = false ∧ n.outcome (n.ops + 1) = true
                ∧ n.outcome (n.ops + 2) = true)))
      ∧ (n.outcome n.ops = false → n.outcome (n.ops + 1) = true →
          n.outcome (n.ops + 2) = true →
          ops = [NetOp.write c zplCommand false,
                 NetOp.dial (p.printerIP ++ str ":9100") (some n.nextConn),
                 NetOp.close c,
                 NetOp.write n.nextConn zplCommand true]
            ∧ dials ops = 1
            ∧ (p.PrintLabel zplCommand n).2.1.conn = some n.nextConn)
      ∧ (n.outcome n.ops = false → n.outcome (n.ops + 1) = true →
          n.outcome (n.ops + 2) = false →
          (p.PrintLabel zplCommand n).1 = some PrintError.sendFailed
            ∧ writes ops = 2
            ∧ ops = [NetOp.write c zplCommand false,
                 NetOp.dial (p.printerIP ++ str ":9100") (some n.nextConn),
                 NetOp.close c,
                 NetOp.write n.nextConn zplCommand false]) := by
  cases h1 : n.outcome n.ops with
  | true =>
    refine ⟨[NetOp.write c zplCommand true], ?_, by simp [writes], by simp [dials], ?_, ?_, ?_⟩
    · simp [PrinterConnection.PrintLabel, hc, Net.write, h1]
    · simp [PrinterConnection.PrintLabel, hc, Net.write, h1]
    · intro h; cases h
    · intro h; cases h
  | false =>
    cases h2 : n.outcome (n.ops + 1) with
    | false =>
      refine ⟨[NetOp.write c zplCommand false,
        NetOp.dial (p.printerIP ++ str ":9100") none], ?_, by simp [writes], by simp [dials], ?_, ?_, ?_⟩
      · simp [PrinterConnection.PrintLabel, hc, Net.write, Net.dial, h1, h2]
      · simp [PrinterConnection.PrintLabel, hc, Net.write, Net.dial, h1, h2]
      · intro _ h; cases h
      · intro _ h; cases h
    | true =>
      cases h3 : n.outcome (n.ops + 2) with
      | false =>
        refine ⟨[NetOp.write c zplCommand false,
          NetOp.dial (p.printerIP ++ str ":9100") (some n.nextConn), NetOp.close c,
          NetOp.write n.nextConn zplCommand false], ?_, by simp [writes], by simp [dials], ?_, ?_, ?_⟩
        · simp [PrinterConnection.PrintLabel, hc, Net.write, Net.dial, Net.close, h1, h2, h3]
        · simp [PrinterConnection.PrintLabel, hc, Net.write, Net.dial, Net.close, h1, h2, h3]
        · intro _ _ h; cases h
        · intro _ _ _
          refine ⟨?_, by simp [writes], rfl⟩
          simp [PrinterConnection.PrintLabel, hc, Net.write, Net.dial, Net.close, h1, h2, h3]
      | true =>
        refine ⟨[NetOp.write c zplCommand false,
          NetOp.dial (p.printerIP ++ str ":9100") (some n.nextConn), NetOp.close c,
          NetOp.write n.nextConn zplCommand true], ?_, by simp [writes], by simp [dials], ?_, ?_, ?_⟩
        · simp [PrinterConnection.PrintLabel, hc, Net.write, Net.dial, Net.close, h1, h2, h3]
        · simp [PrinterConnection.PrintLabel, hc, Net.write, Net.dial, Net.close, h1, h2, h3]
        · intro _ _ _
          refine ⟨rfl, by simp [dials], ?_⟩
          simp [PrinterConnection.PrintLabel, hc, Net.write, Net.dial, Net.close, h1, h2, h3]
        · intro _ _ h; cases h

/-- C16, witness: a connection on socket 7 against a network whose first operation
fails and every later one succeeds; the label is sent on the new socket 8. -/
theorem PrintLabel_single_retry_witness :
    (PrinterConnection.PrintLabel { conn := some 7, printerIP := str "10.20.25.10" }
        (str "^XA^XZ")
        { outcome := fun k => k != 0, ops := 0, nextConn := 8, trace := [] }).1 = none
      ∧ (PrinterConnection.PrintLabel { conn := some 7, printerIP := str "10.20.25.10" }
        (str "^XA^XZ")
        { outcome := fun k => k != 0, ops := 0, nextConn := 8, trace := [] }).2.1.conn
          = some 8 := by
  obtain ⟨ops, _, _, _, hiff, hretry, _⟩ :=
    PrintLabel_single_retry { conn := some 7, printerIP := str "10.20.25.10" } 7
      (str "^XA^XZ") { outcome := fun k => k != 0, ops := 0, nextConn := 8, trace := [] } rfl
  exact ⟨hiff.mpr (Or.inr ⟨by decide, by decide, by decide⟩),
    (hretry (by decide) (by decide) (by decide)).2.2⟩

/-- C17. `AddPrinter` with a tag that is already registered returns the error, makes no
network operation and leaves the registry as it was. -/
theorem AddPrinter_duplicate (pm : PrinterManager) (tag ip : GoString) (n : Net)
    (p : PrinterConnection) (h : pm.get tag = some p) :
    pm.AddPrinter tag ip n = (some (PrintError.alreadyExists tag), pm, n) := by
  simp [PrinterManager.AddPrinter, h]

/-- C17, witness: the tag `P1` added a second time. -/
theorem AddPrinter_duplicate_witness :
    PrinterManager.get
        { printers := [(str "P1", { conn := some 0, printerIP := str "10.20.25.10" })] }
        (str "P1") = some { conn := some 0, printerIP := str "10.20.25.10" }
      ∧ PrinterManager.AddPrinter
          { printers := [(str "P1", { conn := some 0, printerIP := str "10.20.25.10" })] }
          (str "P1") (str "10.20.25.11")
          { outcome := fun _ => true, ops := 1, nextConn := 1,
            trace := [NetOp.dial (str "10.20.25.10:9100") (some 0)] }
        = (some (PrintError.alreadyExists (str "P1")),
          { printers := [(str "P1", { conn := some 0, printerIP := str "10.20.25.10" })] },
          { outcome := fun _ => true, ops := 1, nextConn := 1,
            trace := [NetOp.dial (str "10.20.25.10:9100") (some 0)] }) :=
  ⟨by decide, AddPrinter_duplicate _ _ _ _
    { conn := some 0, printerIP := str "10.20.25.10" } (by decide)⟩

/-- C18. `RemovePrinter` and `PrintLabel` of the manager with a tag that is not
registered return the error, make no network operation and leave the registry as it
was. -/
theorem unknown_tag (pm : PrinterManager) (tag zplCommand : GoString) (n : Net)
    (h : pm.get tag = none) :
    pm.RemovePrinter tag n = (some (PrintError.notFound tag), pm, n)
      ∧ pm.PrintLabel tag zplCommand n = (some (PrintError.notFound tag), pm, n) := by
  simp [PrinterManager.RemovePrinter, PrinterManager.PrintLabel, h]

/-- C18, witness: the tag `P2` in a registry that holds `P1`. -/
theorem unknown_tag_witness :
    PrinterManager.get
        { printers := [(str "P1", { conn := some 0, printerIP := str "10.20.25.10" })] }
        (str "P2") = none
      ∧ PrinterManager.RemovePrinter
          { printers := [(str "P1", { conn := some 0, printerIP := str "10.20.25.10" })] }
          (str "P2") { outcome := fun _ => true, ops := 1, nextConn := 1, trace := [] }
        = (some (PrintError.notFound (str "P2")),
          { printers := [(str "P1", { conn := some 0, printerIP := str "10.20.25.10" })] },
          { outcome := fun _ => true, ops := 1, nextConn := 1, trace := [] }) :=
  ⟨by decide, (unknown_tag _ _ (str "^XA^XZ") _ (by decide)).1⟩

theorem closeLoop_eq :
    ∀ (l : List (GoString × PrinterConnection)) (pm : PrinterManager) (n : Net),
      PrinterManager.closeLoop l pm n
        = ({ printers := pm.printers.filter (fun e => ¬ e.1 ∈ l.map (fun x => x.1)) },
           { n with trace := n.trace ++ l.filterMap (fun e => e.2.conn.map NetOp.close) }) := by
  intro l
  induction l with
  | nil => intro pm n; simp [PrinterManager.closeLoop]
  | cons e rest ih =>
    intro pm n
    obtain ⟨tag, printer⟩ := e
    rw [PrinterManager.closeLoop, ih]
    congr 1
    · simp only [PrinterManager.delete, List.filter_filter, List.map_cons, List.mem_cons,
        not_or]
      congr 1
      apply List.filter_congr
      intro x _
      simp [Bool.and_comm]
    · cases hc : printer.conn with
      | none => simp [PrinterConnection.Close, hc]
      | some c => simp [PrinterConnection.Close, hc, Net.close]

/-- C19. After `PrinterManager.Close` the registry is empty and the only network
operations made are the closings of the sockets of the registered connections, one per
registered connection; a second `Close` makes no network operation and leaves the
registry empty, and `PrintLabel` of the manager then returns the error for an unknown tag
whatever the tag. -/
theorem Close_all (pm : PrinterManager) (n : Net) :
    (pm.Close n).1.printers = []
      ∧ (pm.Close n).2
          = { n with trace := n.trace
                ++ pm.printers.filterMap (fun e => e.2.conn.map NetOp.close) }
      ∧ (pm.Close n).1.Close (pm.Close n).2 = pm.Close n
      ∧ ∀ tag zplCommand : GoString,
          (pm.Close n).1.PrintLabel tag zplCommand (pm.Close n).2
            = (some (PrintError.notFound tag), (pm.Close n).1, (pm.Close n).2) := by
  have h1 : (pm.Close n).1.printers = [] := by
    unfold PrinterManager.Close
    rw [closeLoop_eq]
    simp only [List.filter_eq_nil_iff]
    intro e he
    simp only [decide_not, Bool.not_eq_true', decide_eq_false_iff_not, not_not, List.mem_map]
    exact ⟨e, he, rfl⟩
  refine ⟨h1, ?_, ?_, ?_⟩
  · unfold PrinterManager.Close
    rw [closeLoop_eq]
  · generalize pm.Close n = q at h1
    obtain ⟨⟨l⟩, q2⟩ := q
    simp only at h1
    subst h1
    rfl
  · intro tag zplCommand
    generalize pm.Close n = q at h1
    obtain ⟨⟨l⟩, q2⟩ := q
    simp only at h1
    subst h1
    rfl

end printer

/-! ## The geometry of the label -/

namespace printer

/-- C21. For every badge record and base URL the barcode placement of the stream is at
`x = labelWidth - 120 - 100 = 389`: the origin is not negative and origin plus block size
120 is 509, within the canvas width 609. The width passed to the three `wrapText` calls is
this origin minus the text origin 12 minus the gutter 15, which is 362, and the right
edge `12 + 362 = 374` of the text block is left of the barcode origin. -/
theorem GenerateZPL_barcode_span (data : LabelData) (baseURL : GoString) :
    ∃ (qrX maxTextWidth : Int) (front : GoString) (nameLines companyLines roleLines :
        List GoString),
      qrX = (NewZPLLabelGenerator baseURL).labelWidth - 120 - 100
        ∧ maxTextWidth = qrX - 12 - 15
        ∧ wrapText (normalizeText data.Name) maxTextWidth 60 45 = some nameLines
        ∧ wrapText (normalizeText data.Company) maxTextWidth 45 35 = some companyLines
        ∧ wrapText (normalizeText data.Role) maxTextWidth 40 30 = some roleLines
        ∧ front = spec.header ++ spec.block "Name" "60,45" 25 65 nameLines
            ++ spec.block "Company" "45,35" (spec.companyStart nameLines) 50 companyLines
            ++ spec.block "Role" "40,30" (spec.roleStart nameLines companyLines) 45 roleLines
        ∧ GenerateZPL (NewZPLLabelGenerator baseURL) data
            = some (front
                ++ (str "REM *** QR Code ***\n^FO" ++ fmtD qrX ++ str "," ++ fmtD 60
                    ++ str "^BQN,2,5^FDQA," ++ (baseURL ++ data.EmployeeID) ++ str "^FS\n\n")
                ++ spec.caption data.EmployeeID ++ str "^XZ")
        ∧ (NewZPLLabelGenerator baseURL).labelWidth = 609
        ∧ qrX = 389 ∧ 0 ≤ qrX ∧ qrX + 120 ≤ 609
        ∧ maxTextWidth = 362 ∧ 12 + maxTextWidth < qrX := by
  obtain ⟨nameLines, companyLines, roleLines, hn, hc, hr, hg⟩ :=
    GenerateZPL_eq_stream data baseURL
  refine ⟨389, 362, _, nameLines, companyLines, roleLines, by simp [NewZPLLabelGenerator],
    by decide, hn, hc, hr,
    rfl, ?_, rfl, rfl, by decide, by decide, rfl, by decide⟩
  rw [hg]
  unfold spec.stream spec.barcode
  have hqr : str "REM *** QR Code ***\n^FO" ++ fmtD 389 ++ str "," ++ fmtD 60
      ++ str "^BQN,2,5^FDQA," = str "REM *** QR Code ***\n^FO389,60^BQN,2,5^FDQA," := by decide
  rw [← hqr]

/-- C22, the code at a long word that is not the first word. The budget is 16; alone, the
surname of 35 runes is truncated to 13 runes and `...`; after the word `Hubert` it
becomes the second line as it is, with 35 runes. -/
theorem wrapText_second_line_not_truncated :
    charsPerLine 362 45 = some 16
      ∧ normalizeText (str "Hubert Wolfeschlegelsteinhausenbergerdorff")
          = str "Hubert Wolfeschlegelsteinhausenbergerdorff"
      ∧ wrapText (str "Wolfeschlegelsteinhausenbergerdorff") 362 60 45
          = some [str "Wolfeschlegel..."]
      ∧ wrapText (str "Hubert Wolfeschlegelsteinhausenbergerdorff") 362 60 45
          = some [str "Hubert", str "Wolfeschlegelsteinhausenbergerdorff"]
      ∧ utf8.RuneCountInString (str "Wolfeschlegelsteinhausenbergerdorff") = 35 := by
  decide

theorem wrapText_length_le (text : GoString) (maxWidth fontHeight fontWidth : Int)
    (lines : List GoString) (h : wrapText text maxWidth fontHeight fontWidth = some lines) :
    lines.length ≤ 2 := by
  unfold wrapText at h
  cases hc : charsPerLine maxWidth fontWidth with
  | none => simp [hc] at h
  | some cpl =>
    simp only [hc, Option.some_bind] at h
    split at h
    · cases h
      simp
    · simp only [Option.map_eq_some'] at h
      obtain ⟨st, _, hst⟩ := h
      rw [← hst, List.length_take]
      omega

theorem textPlacements_ok :
    ∀ n, n ≤ 2 → ∀ m, m ≤ 2 → ∀ k, k ≤ 2 →
      (∀ p ∈ spec.textPlacements n m k, 25 ≤ p.1 ∧ p.1 ≤ 330 ∧ p.1 + p.2 ≤ 406)
        ∧ List.Pairwise (fun p q : Int × Int => p.1 + p.2 ≤ q.1) (spec.textPlacements n m k) := by
  decide

/-- C23. For every badge record and base URL the three blocks of the stream have at most
2 lines each, and the text placements, taken in the order of the stream with their font
heights, all have an offset of at least 25 and at most 330, end at or above 406 (offset
plus font height), and every placement ends at or above the offset of every later one, so
no two text lines overlap. The demo record has two lines per block and its last Role line
is at 330. -/
theorem GenerateZPL_vertical_layout (data : LabelData) (baseURL : GoString) :
    (∃ nameLines companyLines roleLines,
      wrapText (normalizeText data.Name) 362 60 45 = some nameLines
        ∧ wrapText (normalizeText data.Company) 362 45 35 = some companyLines
        ∧ wrapText (normalizeText data.Role) 362 40 30 = some roleLines
        ∧ GenerateZPL (NewZPLLabelGenerator baseURL) data
            = some (spec.header
                ++ spec.block "Name" "60,45" 25 65 nameLines
                ++ spec.block "Company" "45,35" (25 + 65 * (nameLines.length : Int) + 15) 50
                    companyLines
                ++ spec.block "Role" "40,30"
                    (25 + 65 * (nameLines.length : Int) + 15
                      + 50 * (companyLines.length : Int) + 15) 45 roleLines
                ++ spec.barcode (baseURL ++ data.EmployeeID)
                ++ spec.caption data.EmployeeID
                ++ str "^XZ")
        ∧ nameLines.length ≤ 2 ∧ companyLines.length ≤ 2 ∧ roleLines.length ≤ 2
        ∧ (∀ p ∈ spec.textPlacements nameLines.length companyLines.length roleLines.length,
            25 ≤ p.1 ∧ p.1 ≤ 330 ∧ p.1 + p.2 ≤ 406)
        ∧ List.Pairwise (fun p q : Int × Int => p.1 + p.2 ≤ q.1)
            (spec.textPlacements nameLines.length companyLines.length roleLines.length))
      ∧ wrapText (normalizeText (str "José María González Pérez")) 362 60 45
          = some [str "Jose Maria", str "Gonzalez"]
      ∧ wrapText (normalizeText (str "Soluciones Tecnológicas México S.A. de C.V.")) 362 45 35
          = some [str "Soluciones", str "Tecnologicas"]
      ∧ wrapText (normalizeText (str "Gerente de Desarrollo y Operaciones")) 362 40 30
          = some [str "Gerente de Desarrollo y", str "Operaciones"]
      ∧ spec.textPlacements 2 2 2
          = [(25, 60), (90, 60), (170, 45), (220, 45), (285, 40), (330, 40)] := by
  refine ⟨?_, by decide, by decide, by decide, by decide⟩
  obtain ⟨nameLines, companyLines, roleLines, hn, hc, hr, hg⟩ :=
    GenerateZPL_eq_stream data baseURL
  have h1 := wrapText_length_le _ _ _ _ _ hn
  have h2 := wrapText_length_le _ _ _ _ _ hc
  have h3 := wrapText_length_le _ _ _ _ _ hr
  have hp := textPlacements_ok _ h1 _ h2 _ h3
  exact ⟨nameLines, companyLines, roleLines, hn, hc, hr, hg, h1, h2, h3, hp.1, hp.2⟩

end printer
